import Mathlib

/-!
Shallow embedding of the solitaire core of `src/main.rs`:
the card codec (`Card`), the table state (`SolitareState`), selection
validity (`GameState::is_selection_valid`), the move engine
(`GameState::try_move`), the pick dispatch in `GameState::run`, and the
deal (`SolitareState::new`, parameterised by the shuffled deck).

Machine integers are modelled as `Nat` with explicit wrap-arounds where
the Rust code computes in `u8`/`u64`; fallible operations (array
indexing, `assert!`, `panic!`, `unreachable!`) are modelled in `Option`,
`none` meaning the Rust program panics.
-/

namespace Solitare

/-- Wrapping `u8` addition (release-mode semantics of `a + b` on `u8`). -/
def add8 (a b : Nat) : Nat := (a + b) % 256

/-- Wrapping `u8` subtraction (release-mode semantics of `a - b` on `u8`). -/
def sub8 (a b : Nat) : Nat := (a + 256 - b % 256) % 256

/-- `Card::rank`: `self.0 & 0b0000_1111`. -/
def rank8 (c : Nat) : Nat := c &&& 15

/-- `Card::suit`: `self.0 >> 4`. -/
def suit8 (c : Nat) : Nat := c >>> 4

/-- `Card::is_red`: `(self.0 >> 4) & 1 == 1`. -/
def is_red8 (c : Nat) : Bool := (c >>> 4) &&& 1 == 1

/-- `Card::to_ind`: `(suit * 13 + rank - 1) as usize`, computed in `u8`
(the `- 1` wraps when suit and rank are both `0`). -/
def to_ind8 (c : Nat) : Nat := (suit8 c * 13 + rank8 c + 255) % 256

/-- `Card::from_suit_rank`: `assert!(suit < 4 && rank <= 13)`, then
`(suit << 4) | rank`.  `none` models the failing assertion. -/
def from_suit_rank (s r : Nat) : Option Nat :=
  if s < 4 ∧ r ≤ 13 then some ((s <<< 4) ||| r) else none

/-- `Card::from_index`: rank `i % 13 + 1`, suit `i / 13`. -/
def from_index (i : Nat) : Option Nat := from_suit_rank (i / 13) (i % 13 + 1)

/-- The byte of the card with linear index `k` (`0 ≤ k < 52`):
suit `k / 13`, rank `k % 13 + 1`. -/
def cardByte (k : Nat) : Nat := ((k / 13) <<< 4) ||| (k % 13 + 1)

/-- All `u64` bits set: the value of `!0u64`, used by `!(1 << i)`. -/
def U64MAX : Nat := 2 ^ 64 - 1

/-- `deck &= !(1 << k)` on `u64`. -/
def clearBit (d k : Nat) : Nat := d &&& (U64MAX ^^^ (1 <<< k))

/-- Bit-population count with explicit fuel; `pcFuel x 64` is
`u64::count_ones` for `x < 2^64`. -/
def pcFuel : Nat → Nat → Nat
  | _, 0 => 0
  | x, fuel + 1 => x % 2 + pcFuel (x / 2) fuel

/-- `u64::count_ones`. -/
def popcount64 (x : Nat) : Nat := pcFuel x 64

/-- Trailing-zero count with explicit fuel; `tzFuel x 64` is
`u64::trailing_zeros` for `x < 2^64` (it is `64` at `x = 0`). -/
def tzFuel : Nat → Nat → Nat
  | _, 0 => 0
  | x, fuel + 1 => if x % 2 = 1 then 0 else tzFuel (x / 2) fuel + 1

/-- `u64::trailing_zeros`. -/
def trailing_zeros (x : Nat) : Nat := tzFuel x 64

/-- The selection / highlight type (`enum Highlight`). -/
inductive Highlight where
  | None : Highlight
  | Target : Nat → Highlight
  | Deck : Nat → Highlight
  | Slot : Nat → Nat → Highlight
deriving DecidableEq, Repr

/-- The table state (`struct SolitareState`): `deck` is the 52-bit
reserve bitset (`u64`), `targets` the four per-suit foundation counters
(`[u8; 4]`), `slots` the seven 19-cell column arrays (`[[u8; 19]; 7]`),
`slots_lens` the seven packed length/hidden bytes (`[u8; 7]`, low nibble
length, high nibble hidden count). -/
structure SolitareState where
  deck : Nat
  targets : List Nat
  slots : List (List Nat)
  slots_lens : List Nat
deriving DecidableEq, Repr

/-- The engine state (`struct GameState` without the terminal handle):
the table plus the current selection. -/
structure GameState where
  state : SolitareState
  selected : Highlight
deriving DecidableEq, Repr

/-- Checked write into a fixed-size Rust array: `none` models the
index-out-of-bounds panic. -/
def setc? {α : Type} (l : List α) (i : Nat) (v : α) : Option (List α) :=
  if i < l.length then some (l.set i v) else none

/-- Shape and range constraints imposed by the Rust types:
`u64` deck, four `u8` targets, seven 19-byte columns, seven `u8`
packed length bytes. -/
def WF (st : SolitareState) : Prop :=
  st.deck < 2 ^ 64 ∧ st.targets.length = 4 ∧ (∀ t ∈ st.targets, t < 256) ∧
  st.slots.length = 7 ∧ (∀ col ∈ st.slots, col.length = 19 ∧ ∀ b ∈ col, b < 256) ∧
  st.slots_lens.length = 7 ∧ ∀ l ∈ st.slots_lens, l < 256

instance (st : SolitareState) : Decidable (WF st) := by
  unfold WF; infer_instance

/-- The packed length byte of column `c`. -/
def lensByte (st : SolitareState) (c : Nat) : Nat := st.slots_lens.getD c 0

/-- Column `c`'s length: low nibble of the packed byte. -/
def lenOf (st : SolitareState) (c : Nat) : Nat := lensByte st c &&& 15

/-- Column `c`'s hidden count: high nibble of the packed byte. -/
def hidOf (st : SolitareState) (c : Nat) : Nat := lensByte st c >>> 4

/-- Column `c`'s 19-byte storage. -/
def colOf (st : SolitareState) (c : Nat) : List Nat := st.slots.getD c []

/-- The byte stored at row `r` of column `c`. -/
def cardAt (st : SolitareState) (c r : Nat) : Nat := (colOf st c).getD r 0

/-- Foundation counter of suit `s`. -/
def targAt (st : SolitareState) (s : Nat) : Nat := st.targets.getD s 0

/-- `GameState::is_selection_valid`: `[valid as source, valid as
destination]`. -/
def is_selection_valid (st : SolitareState) (sel : Highlight) : Bool × Bool :=
  match sel with
  | .None => (false, false)
  | .Target i =>
    if i < 4 then (decide (0 < st.targets.getD i 0), true) else (false, false)
  | .Deck i => (decide (i < popcount64 st.deck), false)
  | .Slot col row =>
    if col < 7 then
      let slot := st.slots_lens.getD col 0
      (decide (slot >>> 4 ≤ row ∧ row < slot &&& 15), true)
    else (false, false)

/-- One pass of the `for _ in 0..=i` scan in `try_move`'s `Deck` arm:
`j` passes of `skip = deck.trailing_zeros() + 1; deck >>= skip;
card_ind += skip` starting from `(deck, 0)`. -/
def deck_scan (d : Nat) : Nat → Nat × Nat
  | 0 => (d, 0)
  | j + 1 =>
    let p := deck_scan d j
    let skip := trailing_zeros p.1 + 1
    (p.1 >>> skip, p.2 + skip)

/-- The linear index of the `i`-th (0-based) set bit computed by
`try_move`'s `Deck` arm: `i + 1` scan passes, then `card_ind -= 1`. -/
def deck_nth_ind (d i : Nat) : Nat := (deck_scan d (i + 1)).2 - 1

/-- Lines 359–392 of `try_move`: resolve the armed selection to the
moving card byte and the `multiple` flag. -/
def resolve_card (st : SolitareState) (selected : Highlight) :
    Option (Nat × Bool) :=
  match selected with
  | .None => none
  | .Target suit => do
    let rank ← st.targets.get? suit
    let c ← from_suit_rank suit rank
    pure (c, false)
  | .Deck i => do
    let c ← from_index (deck_nth_ind st.deck i)
    pure (c, false)
  | .Slot col row => do
    let l ← st.slots_lens.get? col
    let colCards ← st.slots.get? col
    let c ← colCards.get? row
    pure (c, decide (add8 row 1 < (l &&& 15)))

/-- The copy loop of the multi-card branch:
`for i in 0..n_cards { slots[col][(slot_len + i)] = slots[from_col][(row + i)] }`.
`copy_loop slots from_col col row slot_len n` performs the first `n`
iterations. -/
def copy_loop (slots : List (List Nat)) (from_col col row slot_len : Nat) :
    Nat → Option (List (List Nat))
  | 0 => some slots
  | n + 1 => do
    let slots1 ← copy_loop slots from_col col row slot_len n
    let fc ← slots1.get? from_col
    let v ← fc.get? (add8 row n)
    let tc ← slots1.get? col
    let tc1 ← setc? tc (add8 slot_len n) v
    setc? slots1 col tc1

/-- Single-card removal from a slot column (lines 417–425 and 469–479):
decrement the packed length and reveal one hidden card when the hidden
count reaches the new length. -/
def shrink_lens_byte (l : Nat) : Nat :=
  let n_cards := sub8 (l &&& 15) 1
  let h0 := l >>> 4
  ((if 0 < h0 ∧ h0 = n_cards then h0 - 1 else h0) <<< 4) ||| n_cards

/-- Multi-card removal of the run starting at `row` (lines 481–491):
`n_moved = n_cards - row`, new length `n_cards - n_moved`, with the same
reveal rule against the new length. -/
def multi_shrink_byte (l row : Nat) : Nat :=
  let n_cards := l &&& 15
  let n_moved := sub8 n_cards row
  let new_n_cards := sub8 n_cards n_moved
  let h0 := l >>> 4
  ((if 0 < h0 ∧ h0 = new_n_cards then h0 - 1 else h0) <<< 4) ||| new_n_cards

/-- Source removal in the foundation-destination branch (lines 410–427):
a `Deck` source clears the card's reserve bit, a `Slot` source shrinks
its column; `Target`/`None` sources are `unreachable!()` there. -/
def remove_from_source (st : SolitareState) (selected : Highlight)
    (card : Nat) : Option SolitareState :=
  match selected with
  | .None => none
  | .Target _ => none
  | .Deck _ => some { st with deck := clearBit st.deck (to_ind8 card) }
  | .Slot col _ => do
    let l ← st.slots_lens.get? col
    let lens1 ← setc? st.slots_lens col (shrink_lens_byte l)
    some { st with slots_lens := lens1 }

/-- The foundation-destination branch of `try_move` (lines 401–431). -/
def tm_target (st : SolitareState) (selected selection : Highlight)
    (card : Nat) (multiple : Bool) : Option (SolitareState × Highlight) := do
  let t ← st.targets.get? (suit8 card)
  if rank8 card ≠ add8 t 1 ∨ multiple = true then
    some (st, selection)
  else do
    let targets1 ← setc? st.targets (suit8 card) (add8 t 1)
    let st2 ← remove_from_source { st with targets := targets1 } selected card
    some (st2, .None)

/-- The legality check of the slot-destination branch (lines 439–448):
an empty column takes exactly a King; a non-empty column takes a card
one rank below its top card and of the other colour. -/
def slot_legal (st : SolitareState) (col card slotv : Nat) : Option Bool :=
  if slotv &&& 15 = 0 then some (decide (rank8 card = 13))
  else do
    let colCards ← st.slots.get? col
    let target_card ← colCards.get? ((slotv &&& 15) - 1)
    some (decide (rank8 card + 1 = rank8 target_card ∧
      is_red8 card ≠ is_red8 target_card))

/-- The single-card append to a slot column (lines 453–458). -/
def append_single (st : SolitareState) (col card slotv : Nat) :
    Option SolitareState := do
  let colCards ← st.slots.get? col
  let colCards1 ← setc? colCards (slotv &&& 15) card
  let slots1 ← setc? st.slots col colCards1
  let lens1 ← setc? st.slots_lens col
    (((slotv >>> 4) <<< 4) ||| add8 (slotv &&& 15) 1)
  some { st with slots := slots1, slots_lens := lens1 }

/-- Source removal in the slot-destination branch (lines 460–506):
a `Target` source gives its top card back, a `Deck` source clears the
bit, a `Slot` source shrinks — running the multi-card copy loop into
destination `col` when `multiple` is set. -/
def slot_remove_source (st : SolitareState) (selected : Highlight)
    (card : Nat) (multiple : Bool) (col slotv : Nat) :
    Option SolitareState :=
  match selected with
  | .None => none
  | .Target suit => do
    let tv ← st.targets.get? suit
    let targets1 ← setc? st.targets suit (sub8 tv 1)
    some { st with targets := targets1 }
  | .Deck _ => some { st with deck := clearBit st.deck (to_ind8 card) }
  | .Slot from_col row => do
    let l ← st.slots_lens.get? from_col
    if multiple then do
      let lens1 ← setc? st.slots_lens from_col (multi_shrink_byte l row)
      let slots2 ← copy_loop st.slots from_col col row (slotv &&& 15) (l &&& 15)
      let lens2 ← setc? lens1 col
        (((slotv >>> 4) <<< 4) ||| add8 (slotv &&& 15) (sub8 (l &&& 15) row))
      some { st with slots := slots2, slots_lens := lens2 }
    else do
      let lens1 ← setc? st.slots_lens from_col (shrink_lens_byte l)
      some { st with slots_lens := lens1 }

/-- The slot-destination branch of `try_move` (lines 433–512). -/
def tm_slot (st : SolitareState) (selected selection : Highlight)
    (card : Nat) (multiple : Bool) (col : Nat) :
    Option (SolitareState × Highlight) := do
  let slotv ← st.slots_lens.get? col
  let legal ← slot_legal st col card slotv
  if legal then do
    let st1 ← if multiple then some st else append_single st col card slotv
    let st2 ← slot_remove_source st1 selected card multiple col slotv
    some (st2, .None)
  else some (st, selection)

/-- `GameState::try_move` (lines 356–514), acting on the table state and
the armed selection `selected`, with the freshly picked `selection` as
destination.  Returns the new table state and the new value of
`self.selected`; `none` models a panic. -/
def try_move (st : SolitareState) (selected selection : Highlight) :
    Option (SolitareState × Highlight) := do
  let cm ← resolve_card st selected
  match selection with
  | .None => none
  | .Target _ => tm_target st selected selection cm.1 cm.2
  | .Deck _ => some (st, selection)
  | .Slot col _ => tm_slot st selected selection cm.1 cm.2 col

/-- The mouse-click dispatch of `GameState::run` (lines 567–592): route
a picked selection through `is_selection_valid` and either arm it, call
`try_move`, or reset the selection. -/
def handle_pick (g : GameState) (sel : Highlight) : Option GameState :=
  let vs := (is_selection_valid g.state sel).1
  let vd := (is_selection_valid g.state sel).2
  match g.selected with
  | .None => if vs then some { g with selected := sel } else some g
  | s =>
    if vd then
      (try_move g.state s sel).map fun p => { state := p.1, selected := p.2 }
    else if vs then some { g with selected := sel }
    else some { g with selected := .None }

/-- The state all fields start from in `SolitareState::new`. -/
def initState : SolitareState :=
  { deck := 0, targets := [0, 0, 0, 0],
    slots := List.replicate 7 (List.replicate 19 0),
    slots_lens := [0, 0, 0, 0, 0, 0, 0] }

/-- The inner dealing loop `for j in i..N { slots[j][i] = deck[cur]; cur += 1 }`,
over the listed values of `j`. -/
def deal_row (deck : List Nat) (i : Nat) :
    List (List Nat) × Nat → List Nat → Option (List (List Nat) × Nat)
  | acc, [] => some acc
  | (slots, cur), j :: rest => do
    let c ← deck.get? cur
    let colj ← slots.get? j
    let colj1 ← setc? colj i c
    let slots1 ← setc? slots j colj1
    deal_row deck i (slots1, cur + 1) rest

/-- The outer dealing loop `for i in 0..N`, also setting
`slots_lens[i] = (i << 4) | (i + 1)`. -/
def deal_all (deck : List Nat) :
    List (List Nat) × List Nat × Nat → List Nat →
      Option (List (List Nat) × List Nat × Nat)
  | acc, [] => some acc
  | (slots, lens, cur), i :: rest => do
    let p ← deal_row deck i (slots, cur) (List.range' i (7 - i))
    let lens1 ← setc? lens i ((i <<< 4) ||| (i + 1))
    deal_all deck (p.1, lens1, p.2) rest

/-- `SolitareState::new` with the shuffled 52-card sequence supplied as
a parameter (the Rust code obtains it from `shuffled_deck()`). -/
def deal (deck : List Nat) : Option SolitareState := do
  let q ← deal_all deck (initState.slots, initState.slots_lens, 0) (List.range 7)
  let dk := (deck.drop q.2.2).foldl (fun d c => d ||| (1 <<< to_ind8 c)) 0
  pure { deck := dk, targets := [0, 0, 0, 0], slots := q.1, slots_lens := q.2.1 }

/-- The canonical 52-card sequence built by `shuffled_deck()` before
shuffling: `deck[i] = Card::from_index(i).0`. -/
def canonical_deck : List Nat := (List.range 52).map cardByte

/-- The number of occurrences of card `k` (linear index, `k < 52`)
across the three storage regions: the reserve bitset, the foundation's
implied run `1..=targets[suit]`, and the in-length region `[0, len)` of
each tableau column. -/
def stCount (st : SolitareState) (k : Nat) : Nat :=
  (if st.deck.testBit k then 1 else 0) +
  (if k % 13 + 1 ≤ targAt st (k / 13) then 1 else 0) +
  ∑ c in Finset.range 7, ∑ r in Finset.range (lenOf st c),
    if cardAt st c r = cardByte k then 1 else 0

/-- The partition invariant: each of the 52 cards appears in exactly
one place. -/
def CardConservation (st : SolitareState) : Prop :=
  ∀ k < 52, stCount st k = 1

instance (st : SolitareState) : Decidable (CardConservation st) := by
  unfold CardConservation; infer_instance

/-- Pad a column prefix to the 19-cell storage array. -/
def pad19 (l : List Nat) : List Nat := l ++ List.replicate (19 - l.length) 0

/-- A small table state: the reserve holds only the ♠5 (linear index 4),
foundations and columns are empty. -/
def stC3 : SolitareState :=
  { deck := 2 ^ 4, targets := [0, 0, 0, 0],
    slots := List.replicate 7 (List.replicate 19 0),
    slots_lens := [0, 0, 0, 0, 0, 0, 0] }

/-- The state used to refute C1: column 0 holds ♠5 below ♥6 (a legal
run), every other card is in the reserve, and the partition invariant
holds. -/
def stC1 : SolitareState :=
  { deck := 2 ^ 52 - 1 - 2 ^ 4 - 2 ^ 18, targets := [0, 0, 0, 0],
    slots := [pad19 [5, 22]] ++ List.replicate 6 (List.replicate 19 0),
    slots_lens := [2, 0, 0, 0, 0, 0, 0] }

/-- The state used to refute C2: column 0 is `[♠6]` with the stale
storage byte 9 at row 3, column 1 is `[♣9, ♥5, ♠4]` with the stale
storage byte 7 at row 3. -/
def stC2 : SolitareState :=
  { deck := 0, targets := [0, 0, 0, 0],
    slots := [pad19 [6, 0, 0, 9], pad19 [41, 21, 4, 7]] ++
      List.replicate 5 (List.replicate 19 0),
    slots_lens := [1, 3, 0, 0, 0, 0, 0] }

/-- The fixed 52-card permutation used for the C10 trace: position 0 is
the ♥J, position 27 (column 6's face-up card) is the ♠10, and the
reserve keeps ♠2, ♠4, ♠6, ♠8, ♥3, ♥5, ♥7, ♥9 available to build a long
run on column 6. -/
def c10deck : List Nat :=
  ([23] ++ [0, 2, 4, 6, 8, 10, 11, 12, 13, 14, 16, 18, 20, 22, 24, 25,
      26, 27, 28, 29, 30, 31, 32, 33, 34, 35] ++
    [9] ++ [1, 3, 5, 7, 15, 17, 19, 21] ++ List.range' 36 16).map cardByte

/-- The 17 valid picks that, from a fresh deal of `c10deck`, build the
15-card column 6 (6 hidden cards, then ♠10 ♥9 ♠8 ♥7 ♠6 ♥5 ♠4 ♥3 ♠2)
and arm the run starting at row 6. -/
def c10picks : List Highlight :=
  [.Deck 7, .Slot 6 0, .Deck 3, .Slot 6 0, .Deck 5, .Slot 6 0,
   .Deck 2, .Slot 6 0, .Deck 3, .Slot 6 0, .Deck 1, .Slot 6 0,
   .Deck 1, .Slot 6 0, .Deck 0, .Slot 6 0, .Slot 6 6]

/-- The engine state reached by dealing `c10deck` and playing
`c10picks`. -/
def c10run : Option GameState :=
  c10picks.foldl (fun g s => g.bind (handle_pick · s))
    ((deal c10deck).map fun st => ⟨st, .None⟩)

/-- The table state after moving the ♠A of `stC1`'s reserve onto its
foundation: bit 0 cleared, spade counter 1. -/
def stC1a : SolitareState :=
  { deck := 2 ^ 52 - 2 - 2 ^ 4 - 2 ^ 18, targets := [1, 0, 0, 0],
    slots := [pad19 [5, 22]] ++ List.replicate 6 (List.replicate 19 0),
    slots_lens := [2, 0, 0, 0, 0, 0, 0] }

/-- A state for exercising the automatic reveal: column 0 holds a
hidden ♣9 under a face-up ♥6 (packed byte `0x12`), column 1 a ♠7. -/
def stC6 : SolitareState :=
  { deck := 0, targets := [0, 0, 0, 0],
    slots := [pad19 [41, 22], pad19 [7], pad19 [], pad19 [], pad19 [],
      pad19 [], pad19 []],
    slots_lens := [18, 1, 0, 0, 0, 0, 0] }

/-- `stC2` after moving the run `♥5 ♠4` from column 1 onto column 0:
the copy loop also drags the stale byte 7 into column 0's row 3. -/
def stC2a : SolitareState :=
  { deck := 0, targets := [0, 0, 0, 0],
    slots := [pad19 [6, 21, 4, 7], pad19 [41, 21, 4, 7]] ++
      List.replicate 5 (List.replicate 19 0),
    slots_lens := [3, 1, 0, 0, 0, 0, 0] }

/-- `stC6` after moving the ♥6 onto the ♠7: column 0 shrinks to its one
(now revealed) card, column 1 grows to two cards. -/
def stC6a : SolitareState :=
  { deck := 0, targets := [0, 0, 0, 0],
    slots := [pad19 [41, 22], pad19 [7, 22], pad19 [], pad19 [], pad19 [],
      pad19 [], pad19 []],
    slots_lens := [1, 2, 0, 0, 0, 0, 0] }

/-- The deal position formula of the row-major deal: pass `i` deals one
card to each of columns `i..6`, so column `j`'s row-`i` card is element
`(sum of 7-k for k < i) + (j - i)` of the shuffled sequence. -/
def dealPos (i j : Nat) : Nat := 7 * i - i * (i - 1) / 2 + (j - i)

/-- The number of storage cells the move engine touches at the source:
a tableau source spans its whole column (the copy loop iterates
`n_cards` times), any other source moves a single card. -/
def moved_span (st : SolitareState) (src : Highlight) : Nat :=
  match src with
  | .Slot c _ => lenOf st c
  | _ => 1

end Solitare

namespace Solitare

theorem setc?_some {α : Type} {l : List α} {i : Nat} {v : α} {l' : List α}
    (h : setc? l i v = some l') : i < l.length ∧ l' = l.set i v := by
  unfold setc? at h
  split at h
  · exact ⟨by assumption, (Option.some_inj.mp h).symm⟩
  · exact absurd h (by simp)

theorem tm_target_cases (st : SolitareState) (selected selection : Highlight)
    (card : Nat) (multiple : Bool) (st' : SolitareState) (sel' : Highlight)
    (h : tm_target st selected selection card multiple = some (st', sel')) :
    sel' = Highlight.None ∨ (st' = st ∧ sel' = selection) := by
  unfold tm_target at h
  simp only [Option.bind_eq_bind', Option.bind_eq_some'] at h
  obtain ⟨t, ht, h⟩ := h
  split at h
  · simp only [Option.some_inj, Prod.mk.injEq] at h
    exact Or.inr ⟨h.1.symm, h.2.symm⟩
  · simp only [Option.bind_eq_bind', Option.bind_eq_some'] at h
    obtain ⟨t1, ht1, st2, hst2, h⟩ := h
    simp only [Option.some_inj, Prod.mk.injEq] at h
    exact Or.inl h.2.symm

theorem tm_slot_cases (st : SolitareState) (selected selection : Highlight)
    (card : Nat) (multiple : Bool) (col : Nat) (st' : SolitareState)
    (sel' : Highlight)
    (h : tm_slot st selected selection card multiple col = some (st', sel')) :
    sel' = Highlight.None ∨ (st' = st ∧ sel' = selection) := by
  unfold tm_slot at h
  simp only [Option.bind_eq_bind', Option.bind_eq_some'] at h
  obtain ⟨slotv, hv, legal, hl, h⟩ := h
  split at h
  · split at h
    · simp only [Option.some_bind, Option.bind_eq_some'] at h
      obtain ⟨st2, hst2, h⟩ := h
      simp only [Option.some_inj, Prod.mk.injEq] at h
      exact Or.inl h.2.symm
    · simp only [Option.bind_eq_some'] at h
      obtain ⟨st1, hst1, st2, hst2, h⟩ := h
      simp only [Option.some_inj, Prod.mk.injEq] at h
      exact Or.inl h.2.symm
  · simp only [Option.some_inj, Prod.mk.injEq] at h
    exact Or.inr ⟨h.1.symm, h.2.symm⟩

/-- C8 (counterexample): the claim asserts that rank 0 is rejected by
`Card::from_suit_rank`, but the assertion `suit < 4 && rank <= 13`
accepts `(0, 0)` and produces the byte `0`. -/
theorem from_suit_rank_accepts_rank_zero : from_suit_rank 0 0 = some 0 := rfl

/-- C8 (amended): `Card::from_suit_rank` fails fast exactly when
`suit ≥ 4` or `rank > 13`; every `suit < 4` with `rank ≤ 13` — rank 0
included — constructs the byte `(suit << 4) | rank`. -/
theorem from_suit_rank_domain (s r : Nat) :
    (from_suit_rank s r = none ↔ 4 ≤ s ∨ 13 < r) ∧
    (s < 4 → r ≤ 13 → from_suit_rank s r = some ((s <<< 4) ||| r)) := by
  constructor
  · unfold from_suit_rank
    split
    · simp only [reduceCtorEq, false_iff]
      omega
    · simp only [true_iff]
      omega
  · intro hs hr
    unfold from_suit_rank
    rw [if_pos ⟨hs, hr⟩]

/-- C8 (witness for the amended theorem). -/
theorem from_suit_rank_domain_witness :
    (from_suit_rank 4 1 = none ↔ 4 ≤ 4 ∨ 13 < 1) ∧
    from_suit_rank 0 13 = some 13 :=
  ⟨(from_suit_rank_domain 4 1).1, (from_suit_rank_domain 0 13).2 (by decide) (by decide)⟩

theorem try_move_cases (st : SolitareState)
    (src dst : Highlight) (st' : SolitareState) (sel' : Highlight)
    (h : try_move st src dst = some (st', sel')) :
    sel' = Highlight.None ∨ (st' = st ∧ sel' = dst) := by
  unfold try_move at h
  simp only [Option.bind_eq_bind', Option.bind_eq_some'] at h
  obtain ⟨cm, hcm, h⟩ := h
  cases dst with
  | None => exact absurd h (by simp)
  | Target t => exact tm_target_cases st src _ cm.1 cm.2 st' sel' h
  | Deck i =>
    simp only [Option.some_inj, Prod.mk.injEq] at h
    exact Or.inr ⟨h.1.symm, h.2.symm⟩
  | Slot c j => exact tm_slot_cases st src _ cm.1 cm.2 c st' sel' h

/-- C9: rejection atomicity.  Whenever `try_move` returns (does not
panic), either the move executed (`selected` reset to `None`) or the
table state is exactly the input state and only the selection variable
changed (it was re-armed with the picked destination). -/
theorem try_move_rejected_state_unchanged (st : SolitareState)
    (src dst : Highlight) (st' : SolitareState) (sel' : Highlight)
    (h : try_move st src dst = some (st', sel')) :
    sel' = Highlight.None ∨ (st' = st ∧ sel' = dst) :=
  try_move_cases st src dst st' sel' h

/-- C9 (witness): a rejected move at a concrete state leaves the table
state untouched. -/
theorem try_move_rejected_state_unchanged_witness :
    Highlight.Target 0 = Highlight.None ∨
      (({ deck := 2 ^ 4, targets := [0, 0, 0, 0],
          slots := List.replicate 7 (List.replicate 19 0),
          slots_lens := [0, 0, 0, 0, 0, 0, 0] } : SolitareState) =
        { deck := 2 ^ 4, targets := [0, 0, 0, 0],
          slots := List.replicate 7 (List.replicate 19 0),
          slots_lens := [0, 0, 0, 0, 0, 0, 0] } ∧
        Highlight.Target 0 = Highlight.Target 0) :=
  try_move_rejected_state_unchanged _ (.Deck 0) (.Target 0) _ _ (by decide)

end Solitare

namespace Solitare

/-- C3 (counterexample): with `Deck 0` (the ♠5) armed, picking
`Target 0` is valid as a destination, the move is illegal
(rank 5 ≠ 1), and `Target 0` is not valid as a source (its foundation
is empty) — yet the engine re-arms with `Target 0` instead of
returning to Idle as the claim requires. -/
theorem abort_counterexample :
    (is_selection_valid stC3 (.Target 0)).2 = true ∧
    (is_selection_valid stC3 (.Target 0)).1 = false ∧
    handle_pick ⟨stC3, .Deck 0⟩ (.Target 0) =
      some ⟨stC3, .Target 0⟩ := by
  refine ⟨rfl, rfl, ?_⟩
  rfl

/-- C3 (amended): in an armed state, a pick that is valid as a
destination either executes the move (selection returns to Idle) or —
when the move is rejected — re-arms with the picked selection
*unconditionally*, whether or not that selection is valid as a source;
the selection returns to Idle only on picks that are invalid both as a
destination and as a source. -/
theorem handle_pick_armed_transitions (g : GameState) (sel : Highlight)
    (g' : GameState) (harmed : g.selected ≠ Highlight.None)
    (h : handle_pick g sel = some g') :
    ((is_selection_valid g.state sel).2 = true →
      g'.selected = Highlight.None ∨
        (g'.state = g.state ∧ g'.selected = sel)) ∧
    ((is_selection_valid g.state sel).2 = false →
      g'.state = g.state ∧
        g'.selected =
          (if (is_selection_valid g.state sel).1 then sel
           else Highlight.None)) := by
  constructor
  · intro hvd
    unfold handle_pick at h
    match hs : g.selected, h with
    | .None, h => exact absurd hs harmed
    | .Target t, h | .Deck i, h | .Slot c r, h =>
      rw [hvd] at h
      simp only [if_true, Option.map_eq_some'] at h
      obtain ⟨⟨st', sel'⟩, hp, hg'⟩ := h
      rcases try_move_cases _ _ _ _ _ hp with h1 | ⟨h1, h2⟩
      · exact Or.inl (by rw [← hg', h1])
      · exact Or.inr ⟨by rw [← hg', h1], by rw [← hg', h2]⟩
  · intro hvd
    unfold handle_pick at h
    match hs : g.selected, h with
    | .None, h => exact absurd hs harmed
    | .Target t, h | .Deck i, h | .Slot c r, h =>
      rw [hvd] at h
      simp only [Bool.false_eq_true, if_false] at h
      split at h
      · rename_i hv
        obtain rfl := Option.some_inj.mp h
        exact ⟨rfl, by simp [hv]⟩
      · rename_i hv
        obtain rfl := Option.some_inj.mp h
        exact ⟨rfl, by simp [hv]⟩

/-- C3 (witness for the amended theorem): the concrete rejected move of
the counterexample state re-arms with the picked destination. -/
theorem handle_pick_armed_transitions_witness :
    (GameState.mk stC3 (.Deck 0)).selected ≠ Highlight.None ∧
    ((is_selection_valid stC3 (.Target 0)).2 = true →
      (GameState.mk stC3 (.Target 0)).selected = Highlight.None ∨
        ((GameState.mk stC3 (.Target 0)).state = stC3 ∧
          (GameState.mk stC3 (.Target 0)).selected = .Target 0)) :=
  ⟨by decide,
    (handle_pick_armed_transitions ⟨stC3, .Deck 0⟩ (.Target 0)
      ⟨stC3, .Target 0⟩ (by decide) (by decide)).1⟩

end Solitare

namespace Solitare

theorem get?_of_lt {α : Type} (l : List α) (i : Nat) (d : α)
    (h : i < l.length) : l.get? i = some (l.getD i d) := by
  rw [List.getD_eq_getElem?_getD, List.get?_eq_getElem?,
    List.getElem?_eq_getElem h]
  rfl

theorem getD_set_ne {α : Type} (l : List α) (i j : Nat) (v d : α)
    (hne : i ≠ j) : (l.set i v).getD j d = l.getD j d := by
  simp [List.getD_eq_getElem?_getD, List.getElem?_set_ne hne]

theorem getD_set_self {α : Type} (l : List α) (i : Nat) (v d : α)
    (hi : i < l.length) : (l.set i v).getD i d = v := by
  simp [List.getD_eq_getElem?_getD, List.getElem?_set_self, hi]

theorem unpack_lo : ∀ h < 16, ∀ m < 16, ((h <<< 4) ||| m) &&& 15 = m := by
  decide

theorem unpack_hi : ∀ h < 16, ∀ m < 16, ((h <<< 4) ||| m) >>> 4 = h := by
  decide

theorem pack_lt_256 : ∀ h < 16, ∀ m < 16, ((h <<< 4) ||| m) < 256 := by
  decide

theorem and15_le (l : Nat) : l &&& 15 ≤ 15 := Nat.and_le_right

theorem shr4_lt (l : Nat) (h : l < 256) : l >>> 4 < 16 := by
  rw [Nat.shiftRight_eq_div_pow]
  omega

theorem colOf_mem (st : SolitareState) (c : Nat) (h7 : st.slots.length = 7)
    (hc : c < 7) : colOf st c ∈ st.slots := by
  unfold colOf
  rw [List.getD_eq_getElem?_getD, List.getElem?_eq_getElem (by omega)]
  exact List.getElem_mem _

theorem exec_chain_sel (o1 : Option SolitareState)
    (k : SolitareState → Option SolitareState) (st' : SolitareState)
    (sel' : Highlight)
    (h : (o1.bind fun st1 => (k st1).bind fun st2 =>
        some (st2, Highlight.None)) = some (st', sel')) :
    sel' = Highlight.None := by
  simp only [Option.bind_eq_some'] at h
  obtain ⟨a, _, b, _, hh⟩ := h
  exact (Prod.mk.injEq _ _ _ _ ▸ Option.some_inj.mp hh).2.symm

/-- C5: tableau placement legality.  Any move whose destination is a
tableau column `c` executes (selection resets to `None`) exactly when
the source card is a King onto an empty column, or its rank is one
below the rank of `c`'s top card and its colour differs from it; every
other combination is rejected. -/
theorem slot_destination_legality (st : SolitareState) (src : Highlight)
    (c j card : Nat) (multiple : Bool) (st' : SolitareState)
    (sel' : Highlight) (hwf : WF st) (hc : c < 7)
    (hres : resolve_card st src = some (card, multiple))
    (h : try_move st src (.Slot c j) = some (st', sel')) :
    sel' = Highlight.None ↔
      ((lenOf st c = 0 ∧ rank8 card = 13) ∨
        (0 < lenOf st c ∧
          rank8 card + 1 = rank8 (cardAt st c (lenOf st c - 1)) ∧
          is_red8 card ≠ is_red8 (cardAt st c (lenOf st c - 1)))) := by
  obtain ⟨hdeck, hts, htv, hsl, hcols, hll, hlv⟩ := hwf
  unfold try_move at h
  rw [hres] at h
  simp only [Option.bind_eq_bind', Option.some_bind] at h
  have hlb : st.slots_lens.get? c = some (lensByte st c) :=
    get?_of_lt _ _ 0 (by rw [hll]; exact hc)
  unfold tm_slot at h
  rw [hlb] at h
  simp only [Option.bind_eq_bind', Option.some_bind] at h
  by_cases hlen : lensByte st c &&& 15 = 0
  · have hleg : slot_legal st c card (lensByte st c) =
        some (decide (rank8 card = 13)) := by
      unfold slot_legal
      rw [if_pos hlen]
    rw [hleg] at h
    simp only [Option.some_bind] at h
    by_cases hrk : rank8 card = 13
    · rw [decide_eq_true hrk, if_pos rfl] at h
      split at h
      · simp only [Option.some_bind, Option.bind_eq_some', Option.some_inj,
          Prod.mk.injEq] at h
        obtain ⟨st2, _, _, h2⟩ := h
        simp only [← h2, true_iff]
        exact Or.inl ⟨hlen, hrk⟩
      · simp only [Option.bind_eq_some', Option.some_inj,
          Prod.mk.injEq] at h
        obtain ⟨st1, _, st2, _, _, h2⟩ := h
        simp only [← h2, true_iff]
        exact Or.inl ⟨hlen, hrk⟩
    · rw [decide_eq_false hrk] at h
      simp only [Bool.false_eq_true, if_false, Option.some_inj,
        Prod.mk.injEq] at h
      constructor
      · intro hx
        rw [← h.2] at hx
        exact absurd hx (by simp)
      · intro hx
        unfold lenOf at hx
        rcases hx with ⟨_, hx2⟩ | ⟨hx1, _⟩
        · exact absurd hx2 hrk
        · omega
  · have hcol : st.slots.get? c = some (colOf st c) :=
      get?_of_lt _ _ [] (by rw [hsl]; exact hc)
    have hclen : (colOf st c).length = 19 :=
      (hcols _ (colOf_mem st c hsl hc)).1
    have htop : (colOf st c).get? ((lensByte st c &&& 15) - 1) =
        some (cardAt st c ((lensByte st c &&& 15) - 1)) :=
      get?_of_lt (colOf st c) ((lensByte st c &&& 15) - 1) 0
        (by rw [hclen]; have := and15_le (lensByte st c); omega)
    have hleg : slot_legal st c card (lensByte st c) =
        some (decide (rank8 card + 1 =
            rank8 (cardAt st c ((lensByte st c &&& 15) - 1)) ∧
          is_red8 card ≠ is_red8 (cardAt st c ((lensByte st c &&& 15) - 1)))) := by
      unfold slot_legal
      rw [if_neg hlen, hcol]
      simp only [Option.bind_eq_bind', Option.some_bind]
      rw [htop]
      rfl
    rw [hleg] at h
    simp only [Option.some_bind] at h
    by_cases hcond : rank8 card + 1 =
        rank8 (cardAt st c ((lensByte st c &&& 15) - 1)) ∧
        is_red8 card ≠ is_red8 (cardAt st c ((lensByte st c &&& 15) - 1))
    · rw [decide_eq_true hcond, if_pos rfl] at h
      split at h
      · simp only [Option.some_bind, Option.bind_eq_some', Option.some_inj,
          Prod.mk.injEq] at h
        obtain ⟨st2, _, _, h2⟩ := h
        simp only [← h2, true_iff]
        unfold lenOf
        exact Or.inr ⟨by omega, hcond.1, hcond.2⟩
      · simp only [Option.bind_eq_some', Option.some_inj,
          Prod.mk.injEq] at h
        obtain ⟨st1, _, st2, _, _, h2⟩ := h
        simp only [← h2, true_iff]
        unfold lenOf
        exact Or.inr ⟨by omega, hcond.1, hcond.2⟩
    · rw [decide_eq_false hcond] at h
      simp only [Bool.false_eq_true, if_false, Option.some_inj,
        Prod.mk.injEq] at h
      constructor
      · intro hx
        rw [← h.2] at hx
        exact absurd hx (by simp)
      · intro hx
        unfold lenOf at hx
        rcases hx with ⟨hx1, _⟩ | ⟨_, hx2, hx3⟩
        · exact absurd hx1 hlen
        · exact absurd ⟨hx2, hx3⟩ hcond

end Solitare

namespace Solitare

/-- C5 (witness): a rejected placement (a 5 onto an empty column) at a
concrete state instantiates the legality characterisation. -/
theorem slot_destination_legality_witness :
    Highlight.Slot 0 0 = Highlight.None ↔
      ((lenOf stC3 0 = 0 ∧ rank8 5 = 13) ∨
        (0 < lenOf stC3 0 ∧
          rank8 5 + 1 = rank8 (cardAt stC3 0 (lenOf stC3 0 - 1)) ∧
          is_red8 5 ≠ is_red8 (cardAt stC3 0 (lenOf stC3 0 - 1)))) :=
  slot_destination_legality stC3 (.Deck 0) 0 0 5 false stC3 (.Slot 0 0)
    (by decide) (by decide) (by decide) (by decide)

end Solitare

namespace Solitare

theorem getD_mem {α : Type} (l : List α) (i : Nat) (d : α)
    (h : i < l.length) : l.getD i d ∈ l := by
  rw [List.getD_eq_getElem?_getD, List.getElem?_eq_getElem h]
  exact List.getElem_mem _

theorem get?_set_ne {α : Type} (l : List α) (i j : Nat) (v : α)
    (hne : i ≠ j) : (l.set i v).get? j = l.get? j := by
  simp [List.get?_eq_getElem?, List.getElem?_set_ne hne]

theorem getD_of_get? {α : Type} {l : List α} {i : Nat} {a d : α}
    (h : l.get? i = some a) : l.getD i d = a := by
  rw [List.getD_eq_getElem?_getD, ← List.get?_eq_getElem?, h]
  rfl

theorem sub8_eq (a b : Nat) (hb : b ≤ a) (ha : a < 256) :
    sub8 a b = a - b := by
  unfold sub8
  omega

theorem add8_eq (a b : Nat) (h : a + b < 256) : add8 a b = a + b := by
  unfold add8
  omega

theorem shrink_spec (l : Nat) (hl : l < 256) (hpos : 0 < l &&& 15) :
    shrink_lens_byte l &&& 15 = (l &&& 15) - 1 ∧
    shrink_lens_byte l >>> 4 =
      (if 0 < l >>> 4 ∧ l >>> 4 = (l &&& 15) - 1 then l >>> 4 - 1
       else l >>> 4) := by
  have h15 := and15_le l
  have h4 := shr4_lt l hl
  simp only [shrink_lens_byte]
  rw [sub8_eq _ _ hpos (by omega)]
  have hh : (if 0 < l >>> 4 ∧ l >>> 4 = (l &&& 15) - 1 then l >>> 4 - 1
      else l >>> 4) < 16 := by
    split <;> omega
  exact ⟨unpack_lo _ hh _ (by omega), unpack_hi _ hh _ (by omega)⟩

theorem multi_shrink_spec (l row : Nat) (hl : l < 256)
    (hrow : row < l &&& 15) :
    multi_shrink_byte l row &&& 15 = row ∧
    multi_shrink_byte l row >>> 4 =
      (if 0 < l >>> 4 ∧ l >>> 4 = row then l >>> 4 - 1 else l >>> 4) := by
  have h15 := and15_le l
  have h4 := shr4_lt l hl
  simp only [multi_shrink_byte]
  rw [sub8_eq (l &&& 15) row (Nat.le_of_lt hrow) (by omega)]
  rw [sub8_eq (l &&& 15) ((l &&& 15) - row) (by omega) (by omega)]
  have hsub : (l &&& 15) - ((l &&& 15) - row) = row := by omega
  rw [hsub]
  have hh : (if 0 < l >>> 4 ∧ l >>> 4 = row then l >>> 4 - 1
      else l >>> 4) < 16 := by
    split <;> omega
  exact ⟨unpack_lo _ hh _ (by omega), unpack_hi _ hh _ (by omega)⟩

/-- C7: run-to-foundation rejection.  First conjunct: an armed
multi-card run (any `Slot` source that resolves with the `multiple`
flag) picked onto any foundation is rejected unconditionally,
whatever the bottom card's rank.  Second conjunct: a foundation move
that executes carries a single card whose rank is exactly its own
suit's counter plus one (the picked foundation index is ignored). -/
theorem run_to_foundation_reject (st : SolitareState) :
    (∀ c r t card, WF st →
      resolve_card st (.Slot c r) = some (card, true) →
      suit8 card < 4 →
      try_move st (.Slot c r) (.Target t) = some (st, .Target t)) ∧
    (∀ src t card multiple st', WF st →
      resolve_card st src = some (card, multiple) →
      try_move st src (.Target t) = some (st', Highlight.None) →
      multiple = false ∧ rank8 card = add8 (targAt st (suit8 card)) 1) := by
  constructor
  · intro c r t card hwf hres hsuit
    unfold try_move
    rw [hres]
    simp only [Option.bind_eq_bind', Option.some_bind]
    unfold tm_target
    have hg : st.targets.get? (suit8 card) =
        some (targAt st (suit8 card)) :=
      get?_of_lt _ _ 0 (by rw [hwf.2.1]; exact hsuit)
    rw [hg]
    simp only [Option.bind_eq_bind', Option.some_bind]
    rw [if_pos (Or.inr trivial)]
  · intro src t card multiple st' hwf hres h
    unfold try_move at h
    rw [hres] at h
    simp only [Option.bind_eq_bind', Option.some_bind] at h
    unfold tm_target at h
    cases hg : st.targets.get? (suit8 card) with
    | none => rw [hg] at h; exact absurd h (by simp)
    | some tv =>
      rw [hg] at h
      simp only [Option.bind_eq_bind', Option.some_bind] at h
      split at h
      · exact absurd (congrArg Prod.snd (Option.some_inj.mp h)) (by simp)
      · rename_i hcnd
        push_neg at hcnd
        have htv : targAt st (suit8 card) = tv := getD_of_get? hg
        refine ⟨?_, by rw [htv]; exact hcnd.1⟩
        cases multiple with
        | false => rfl
        | true => exact absurd rfl hcnd.2

/-- C7 (witness): the run `♠5 ♥6` of `stC1` is rejected by a foundation
even though the ♠5's rank 5 is not at issue; and the executed ♠A move
satisfies the rank condition. -/
theorem run_to_foundation_reject_witness :
    try_move stC1 (.Slot 0 0) (.Target 2) = some (stC1, .Target 2) ∧
    (false = false ∧ rank8 1 = add8 (targAt stC1 (suit8 1)) 1) :=
  ⟨(run_to_foundation_reject stC1).1 0 0 2 5 (by decide) (by decide)
      (by decide),
   (run_to_foundation_reject stC1).2 (.Deck 0) 3 1 false stC1a (by decide)
      (by decide) (by decide)⟩

end Solitare

namespace Solitare

theorem lensByte_mk (d : Nat) (t : List Nat) (sl : List (List Nat))
    (l : List Nat) (c : Nat) :
    lensByte ⟨d, t, sl, l⟩ c = l.getD c 0 := rfl

theorem slots_lens_mk (d : Nat) (t : List Nat) (sl : List (List Nat))
    (l : List Nat) :
    SolitareState.slots_lens ⟨d, t, sl, l⟩ = l := rfl

/-- C6: automatic reveal.  For a valid tableau source `Slot c r` and a
successful move to a foundation or to a *different* tableau column, the
source column shrinks, and its hidden count decrements by exactly one
when it was positive and equal to the new length, and is otherwise
unchanged; in particular it never changes while hidden cards remain
strictly below the new top. -/
theorem reveal_on_removal (st : SolitareState) (c r : Nat)
    (dst : Highlight) (st' : SolitareState) (hwf : WF st)
    (hvalid : (is_selection_valid st (.Slot c r)).1 = true)
    (hdst : (∃ t, dst = Highlight.Target t) ∨
      ∃ c2 j, dst = Highlight.Slot c2 j ∧ c2 ≠ c)
    (h : try_move st (.Slot c r) dst = some (st', Highlight.None)) :
    lenOf st' c < lenOf st c ∧
    hidOf st' c = (if 0 < hidOf st c ∧ hidOf st c = lenOf st' c
      then hidOf st c - 1 else hidOf st c) ∧
    (hidOf st c < lenOf st' c → hidOf st' c = hidOf st c) := by
  obtain ⟨hdeck, hts, htv, hsl, hcols, hll, hlv⟩ := hwf
  have hc : c < 7 := by
    by_contra hc
    simp only [is_selection_valid] at hvalid
    rw [if_neg hc] at hvalid
    exact absurd hvalid (by simp)
  have hrange : lensByte st c >>> 4 ≤ r ∧ r < lensByte st c &&& 15 := by
    simp only [is_selection_valid] at hvalid
    rw [if_pos hc] at hvalid
    exact of_decide_eq_true hvalid
  have hl256 : lensByte st c < 256 :=
    hlv _ (getD_mem _ _ _ (by rw [hll]; exact hc))
  have h15 := and15_le (lensByte st c)
  have h4 := shr4_lt _ hl256
  have hlb : st.slots_lens.get? c = some (lensByte st c) :=
    get?_of_lt _ _ 0 (by rw [hll]; exact hc)
  have hcol : st.slots.get? c = some (colOf st c) :=
    get?_of_lt _ _ [] (by rw [hsl]; exact hc)
  have hclen : (colOf st c).length = 19 :=
    (hcols _ (colOf_mem st c hsl hc)).1
  have hcr : (colOf st c).get? r = some (cardAt st c r) :=
    get?_of_lt _ _ 0 (by rw [hclen]; omega)
  have hres : resolve_card st (.Slot c r) =
      some (cardAt st c r, decide (add8 r 1 < (lensByte st c &&& 15))) := by
    simp only [resolve_card]
    rw [hlb]
    simp only [Option.bind_eq_bind', Option.some_bind]
    rw [hcol]
    simp only [Option.some_bind]
    rw [hcr]
    rfl
  have hlenpos : 0 < lensByte st c &&& 15 := by omega
  obtain ⟨hsp1, hsp2⟩ := shrink_spec (lensByte st c) hl256 hlenpos
  rcases hdst with ⟨t, rfl⟩ | ⟨c2, j, rfl, hne⟩
  · unfold try_move at h
    rw [hres] at h
    simp only [Option.bind_eq_bind', Option.some_bind] at h
    unfold tm_target at h
    cases hg : st.targets.get? (suit8 (cardAt st c r)) with
    | none => rw [hg] at h; exact absurd h (by simp)
    | some tv =>
      rw [hg] at h
      simp only [Option.bind_eq_bind', Option.some_bind] at h
      split at h
      · exact absurd (congrArg Prod.snd (Option.some_inj.mp h)) (by simp)
      · simp only [Option.bind_eq_some'] at h
        obtain ⟨targets1, ht1, st2, hst2, hfin⟩ := h
        unfold remove_from_source at hst2
        simp only [Option.bind_eq_bind', Option.bind_eq_some'] at hst2
        obtain ⟨l2, hl2, lens1, hlens1, hst2e⟩ := hst2
        have hl2e : l2 = lensByte st c :=
          Option.some_inj.mp (hl2.symm.trans hlb)
        subst hl2e
        obtain ⟨hcl, rfl⟩ := setc?_some hlens1
        obtain rfl := Option.some_inj.mp hst2e
        obtain rfl := ((Prod.mk.injEq _ _ _ _).mp (Option.some_inj.mp hfin)).1
        unfold lenOf hidOf
        rw [lensByte_mk, getD_set_self _ _ _ _ hcl, hsp1, hsp2]
        refine ⟨by omega, rfl, ?_⟩
        intro hlt
        rw [if_neg (by omega)]
  · unfold try_move at h
    rw [hres] at h
    simp only [Option.bind_eq_bind', Option.some_bind] at h
    unfold tm_slot at h
    cases hg2 : st.slots_lens.get? c2 with
    | none => rw [hg2] at h; exact absurd h (by simp)
    | some slotv =>
      rw [hg2] at h
      simp only [Option.bind_eq_bind', Option.some_bind] at h
      cases hleg : slot_legal st c2 (cardAt st c r) slotv with
      | none => rw [hleg] at h; exact absurd h (by simp)
      | some legal =>
        rw [hleg] at h
        simp only [Option.some_bind] at h
        cases legal with
        | false =>
          rw [if_neg (by simp)] at h
          exact absurd (congrArg Prod.snd (Option.some_inj.mp h)) (by simp)
        | true =>
          rw [if_pos rfl] at h
          split at h
          · rename_i hm
            simp only [Option.some_bind, Option.bind_eq_some'] at h
            obtain ⟨st2, hst2, hfin⟩ := h
            unfold slot_remove_source at hst2
            rw [hm] at hst2
            simp only [Option.bind_eq_bind', Option.bind_eq_some',
              if_true] at hst2
            obtain ⟨l2, hl2, lens1, hlens1, slots2, hcp, lens2, hlens2,
              hst2e⟩ := hst2
            have hl2e : l2 = lensByte st c :=
              Option.some_inj.mp (hl2.symm.trans hlb)
            subst hl2e
            obtain ⟨hcl1, rfl⟩ := setc?_some hlens1
            obtain ⟨hcl2, rfl⟩ := setc?_some hlens2
            obtain rfl := Option.some_inj.mp hst2e
            obtain rfl :=
              ((Prod.mk.injEq _ _ _ _).mp (Option.some_inj.mp hfin)).1
            obtain ⟨hmp1, hmp2⟩ :=
              multi_shrink_spec (lensByte st c) r hl256 hrange.2
            unfold lenOf hidOf
            rw [lensByte_mk, getD_set_ne _ _ _ _ _ hne,
              getD_set_self _ _ _ _ hcl1, hmp1, hmp2]
            refine ⟨by omega, rfl, ?_⟩
            intro hlt
            rw [if_neg (by omega)]
          · rename_i hm
            simp only [Option.bind_eq_some'] at h
            obtain ⟨st1, hap, st2, hst2, hfin⟩ := h
            unfold append_single at hap
            simp only [Option.bind_eq_bind', Option.bind_eq_some'] at hap
            obtain ⟨colC, hcolC, colC1, hcolC1, slots1, hslots1, lens1,
              hlens1, hape⟩ := hap
            obtain ⟨hcl2, rfl⟩ := setc?_some hlens1
            obtain rfl := Option.some_inj.mp hape
            have hmf : decide (add8 r 1 < (lensByte st c &&& 15)) = false := by
              simpa using hm
            unfold slot_remove_source at hst2
            simp only [Option.bind_eq_bind', Option.bind_eq_some',
              slots_lens_mk, hmf, Bool.false_eq_true, if_false] at hst2
            obtain ⟨l2, hl2, lens2, hlens2, hst2e⟩ := hst2
            rw [get?_set_ne _ _ _ _ hne] at hl2
            have hl2e : l2 = lensByte st c :=
              Option.some_inj.mp (hl2.symm.trans hlb)
            subst hl2e
            obtain ⟨hcl3, rfl⟩ := setc?_some hlens2
            obtain rfl := Option.some_inj.mp hst2e
            obtain rfl :=
              ((Prod.mk.injEq _ _ _ _).mp (Option.some_inj.mp hfin)).1
            unfold lenOf hidOf
            rw [lensByte_mk, getD_set_self _ _ _ _ hcl3, hsp1, hsp2]
            refine ⟨by omega, rfl, ?_⟩
            intro hlt
            rw [if_neg (by omega)]

/-- C6 (witness): removing the face-up ♥6 of `stC6`'s column 0 (one
hidden card below it) onto the ♠7 of column 1 reveals the hidden card. -/
theorem reveal_on_removal_witness :
    lenOf stC6a 0 < lenOf stC6 0 ∧
    hidOf stC6a 0 = (if 0 < hidOf stC6 0 ∧ hidOf stC6 0 = lenOf stC6a 0
      then hidOf stC6 0 - 1 else hidOf stC6 0) ∧
    (hidOf stC6 0 < lenOf stC6a 0 → hidOf stC6a 0 = hidOf stC6 0) :=
  reveal_on_removal stC6 0 1 (.Slot 1 5) stC6a (by decide) (by decide)
    (Or.inr ⟨1, 5, rfl, by decide⟩) (by decide)

end Solitare

namespace Solitare

theorem copy_loop_spec (slots : List (List Nat)) (fc c row sl : Nat)
    (hne : c ≠ fc) :
    ∀ n slots', sl + n < 256 → row + n < 256 →
    copy_loop slots fc c row sl n = some slots' →
    (∀ c3, c3 ≠ c → slots'.getD c3 [] = slots.getD c3 []) ∧
    slots'.length = slots.length ∧
    (slots'.getD c []).length = (slots.getD c []).length ∧
    (∀ p, (∀ i, i < n → p ≠ sl + i) →
      (slots'.getD c []).getD p 0 = (slots.getD c []).getD p 0) ∧
    (∀ i, i < n →
      (slots'.getD c []).getD (sl + i) 0 =
        (slots.getD fc []).getD (row + i) 0)
  | 0, slots', _, _, h => by
    obtain rfl := Option.some_inj.mp h.symm
    exact ⟨fun _ _ => rfl, rfl, rfl, fun _ _ => rfl, fun i hi => absurd hi (by omega)⟩
  | n + 1, slots', hw1, hw2, h => by
    unfold copy_loop at h
    simp only [Option.bind_eq_bind', Option.bind_eq_some'] at h
    obtain ⟨slots1, hrec, fcL, hfcL, v, hv, tc, htc, tc1, htc1, hset⟩ := h
    obtain ⟨ih1, ih2, ih3, ih4, ih5⟩ :=
      copy_loop_spec slots fc c row sl hne n slots1 (by omega) (by omega) hrec
    obtain ⟨hcw, rfl⟩ := setc?_some htc1
    obtain ⟨hcw2, rfl⟩ := setc?_some hset
    have htc' : tc = slots1.getD c [] := (getD_of_get? htc).symm
    subst htc'
    have hfcL' : fcL = slots.getD fc [] := by
      rw [(getD_of_get? hfcL).symm, ih1 fc (Ne.symm hne)]
    have hv' : v = (slots.getD fc []).getD (add8 row n) 0 := by
      rw [← hfcL']
      exact (getD_of_get? hv).symm
    have ha8r : add8 row n = row + n := add8_eq _ _ (by omega)
    have ha8s : add8 sl n = sl + n := add8_eq _ _ (by omega)
    have hclen2 : c < slots1.length := by
      by_contra hx
      rw [List.get?_eq_none.mpr (by omega)] at htc
      exact absurd htc (by simp)
    refine ⟨?_, ?_, ?_, ?_, ?_⟩
    · intro c3 h3
      rw [getD_set_ne _ _ _ _ _ (fun he => h3 he.symm), ih1 c3 h3]
    · rw [List.length_set, ih2]
    · rw [getD_set_self _ _ _ _ hclen2, List.length_set, ih3]
    · intro p hp
      rw [getD_set_self _ _ _ _ hclen2, ha8s,
        getD_set_ne _ _ _ _ _ (fun he => hp n (by omega) he.symm)]
      exact ih4 p fun i hi => hp i (by omega)
    · intro i hi
      rw [getD_set_self _ _ _ _ hclen2, ha8s]
      rcases Nat.lt_or_ge i n with hin | hin
      · rw [getD_set_ne _ _ _ _ _ (by omega)]
        exact ih5 i hin
      · have hieq : i = n := by omega
        subst hieq
        rw [getD_set_self _ _ _ _ (by rw [ha8s] at hcw; exact hcw)]
        rw [hv', ha8r]

end Solitare

namespace Solitare

theorem colOf_mk (d : Nat) (t : List Nat) (sl : List (List Nat))
    (l : List Nat) (c : Nat) : colOf ⟨d, t, sl, l⟩ c = sl.getD c [] := rfl

/-- C2 (counterexample): the claim says no destination cell at row
`old_length + n` or above is modified, but the copy loop iterates over
the source column's *full length*: moving the 2-card run of `stC2`'s
column 1 onto column 0 (old length 1) also overwrites column 0's row 3
(= old_length + n), changing the stale byte 9 into 7. -/
theorem multi_run_frame_counterexample :
    try_move stC2 (.Slot 1 1) (.Slot 0 0) =
      some (stC2a, Highlight.None) ∧
    lenOf stC2 0 + (lenOf stC2 1 - 1) = 3 ∧
    cardAt stC2 0 3 = 9 ∧ cardAt stC2a 0 3 = 7 := by
  refine ⟨?_, rfl, rfl, rfl⟩
  rfl

/-- C2 (amended): a successful multi-card transfer of the run starting
at row `r` of column `c` onto a *different* column `c2` whose new
length still fits the 4-bit field appends the run in order and updates
both lengths as claimed, but the copy loop writes `length(c)` cells,
not `n`: destination rows `[old, old + length c)` all receive source
storage rows `[r, r + length c)`; rows below `old` and from
`old + length c` on, the whole source storage, and every other column
are untouched. -/
theorem multi_run_transfer (st : SolitareState) (c r c2 j : Nat)
    (st' : SolitareState) (hwf : WF st)
    (hvalid : (is_selection_valid st (.Slot c r)).1 = true)
    (hmulti : r + 1 < lenOf st c)
    (hne : c2 ≠ c)
    (hfit : lenOf st c2 + (lenOf st c - r) ≤ 15)
    (h : try_move st (.Slot c r) (.Slot c2 j) = some (st', Highlight.None)) :
    lenOf st' c2 = lenOf st c2 + (lenOf st c - r) ∧
    hidOf st' c2 = hidOf st c2 ∧
    (∀ i, i < lenOf st c - r →
      cardAt st' c2 (lenOf st c2 + i) = cardAt st c (r + i)) ∧
    (∀ i, i < lenOf st c →
      cardAt st' c2 (lenOf st c2 + i) = cardAt st c (r + i)) ∧
    (∀ p, p < lenOf st c2 → cardAt st' c2 p = cardAt st c2 p) ∧
    (∀ p, lenOf st c2 + lenOf st c ≤ p → cardAt st' c2 p = cardAt st c2 p) ∧
    lenOf st' c = r ∧
    colOf st' c = colOf st c ∧
    (∀ c3, c3 ≠ c2 → colOf st' c3 = colOf st c3) ∧
    (∀ c3, c3 ≠ c → c3 ≠ c2 → lensByte st' c3 = lensByte st c3) := by
  obtain ⟨hdeck, hts, htv, hsl, hcols, hll, hlv⟩ := hwf
  have hc : c < 7 := by
    by_contra hc
    simp only [is_selection_valid] at hvalid
    rw [if_neg hc] at hvalid
    exact absurd hvalid (by simp)
  have hrange : lensByte st c >>> 4 ≤ r ∧ r < lensByte st c &&& 15 := by
    simp only [is_selection_valid] at hvalid
    rw [if_pos hc] at hvalid
    exact of_decide_eq_true hvalid
  have hl256 : lensByte st c < 256 :=
    hlv _ (getD_mem _ _ _ (by rw [hll]; exact hc))
  have h15 := and15_le (lensByte st c)
  have h4 := shr4_lt _ hl256
  have hlb : st.slots_lens.get? c = some (lensByte st c) :=
    get?_of_lt _ _ 0 (by rw [hll]; exact hc)
  have hcol : st.slots.get? c = some (colOf st c) :=
    get?_of_lt _ _ [] (by rw [hsl]; exact hc)
  have hclen : (colOf st c).length = 19 :=
    (hcols _ (colOf_mem st c hsl hc)).1
  have hcr : (colOf st c).get? r = some (cardAt st c r) :=
    get?_of_lt _ _ 0 (by rw [hclen]; omega)
  have hres : resolve_card st (.Slot c r) =
      some (cardAt st c r, decide (add8 r 1 < (lensByte st c &&& 15))) := by
    simp only [resolve_card]
    rw [hlb]
    simp only [Option.bind_eq_bind', Option.some_bind]
    rw [hcol]
    simp only [Option.some_bind]
    rw [hcr]
    rfl
  have hmdec : decide (add8 r 1 < (lensByte st c &&& 15)) = true := by
    rw [add8_eq _ _ (by omega)]
    exact decide_eq_true hmulti
  unfold try_move at h
  rw [hres] at h
  simp only [Option.bind_eq_bind', Option.some_bind] at h
  unfold tm_slot at h
  cases hg2 : st.slots_lens.get? c2 with
  | none => rw [hg2] at h; exact absurd h (by simp)
  | some slotv =>
    have hc2 : c2 < 7 := by
      by_contra hx
      rw [List.get?_eq_none.mpr (by omega)] at hg2
      exact absurd hg2 (by simp)
    have hl256b : lensByte st c2 < 256 :=
      hlv _ (getD_mem _ _ _ (by rw [hll]; exact hc2))
    have h15b := and15_le (lensByte st c2)
    have h4b := shr4_lt _ hl256b
    have hsv : slotv = lensByte st c2 := by
      unfold lensByte
      exact (getD_of_get? hg2).symm
    subst hsv
    rw [hg2] at h
    simp only [Option.bind_eq_bind', Option.some_bind] at h
    cases hleg : slot_legal st c2 (cardAt st c r) (lensByte st c2) with
    | none => rw [hleg] at h; exact absurd h (by simp)
    | some legal =>
      rw [hleg] at h
      simp only [Option.some_bind] at h
      cases legal with
      | false =>
        rw [if_neg (by simp)] at h
        exact absurd (congrArg Prod.snd (Option.some_inj.mp h)) (by simp)
      | true =>
        rw [if_pos rfl, hmdec, if_pos rfl] at h
        simp only [Option.some_bind, Option.bind_eq_some'] at h
        obtain ⟨st2, hst2, hfin⟩ := h
        unfold slot_remove_source at hst2
        simp only [Option.bind_eq_bind', Option.bind_eq_some',
          if_true] at hst2
        obtain ⟨l2, hl2, lens1, hlens1, slots2, hcp, lens2, hlens2,
          hst2e⟩ := hst2
        have hl2e : l2 = lensByte st c :=
          Option.some_inj.mp (hl2.symm.trans hlb)
        subst hl2e
        obtain ⟨hcl1, rfl⟩ := setc?_some hlens1
        obtain ⟨hcl2, rfl⟩ := setc?_some hlens2
        obtain rfl := Option.some_inj.mp hst2e
        obtain rfl :=
          ((Prod.mk.injEq _ _ _ _).mp (Option.some_inj.mp hfin)).1
        obtain ⟨hmp1, hmp2⟩ :=
          multi_shrink_spec (lensByte st c) r hl256 hrange.2
        obtain ⟨cp1, cp2, cp3, cp4, cp5⟩ :=
          copy_loop_spec st.slots c c2 r (lensByte st c2 &&& 15) hne
            (lensByte st c &&& 15) slots2 (by omega) (by omega) hcp
        have hsub : sub8 (lensByte st c &&& 15) r = (lensByte st c &&& 15) - r :=
          sub8_eq _ _ (by omega) (by omega)
        have hadd : add8 (lensByte st c2 &&& 15) ((lensByte st c &&& 15) - r) =
            (lensByte st c2 &&& 15) + ((lensByte st c &&& 15) - r) :=
          add8_eq _ _ (by omega)
        have hpk : ((lensByte st c2 >>> 4) <<< 4 |||
            ((lensByte st c2 &&& 15) + ((lensByte st c &&& 15) - r))) &&& 15 =
              (lensByte st c2 &&& 15) + ((lensByte st c &&& 15) - r) ∧
            ((lensByte st c2 >>> 4) <<< 4 |||
              ((lensByte st c2 &&& 15) + ((lensByte st c &&& 15) - r))) >>> 4 =
              lensByte st c2 >>> 4 := by
          unfold lenOf at hfit
          exact ⟨unpack_lo _ h4b _ (by omega), unpack_hi _ h4b _ (by omega)⟩
        refine ⟨?_, ?_, ?_, ?_, ?_, ?_, ?_, ?_, ?_, ?_⟩
        · unfold lenOf
          rw [lensByte_mk, getD_set_self _ _ _ _ hcl2, hsub, hadd, hpk.1]
        · unfold hidOf
          rw [lensByte_mk, getD_set_self _ _ _ _ hcl2, hsub, hadd, hpk.2]
        · intro i hi
          unfold lenOf cardAt
          rw [colOf_mk]
          unfold colOf
          exact cp5 i (by unfold lenOf at hi; omega)
        · intro i hi
          unfold lenOf cardAt
          rw [colOf_mk]
          unfold colOf
          exact cp5 i (by unfold lenOf at hi; omega)
        · intro p hp
          unfold cardAt
          rw [colOf_mk]
          unfold colOf
          exact cp4 p fun i hi => by unfold lenOf at hp; omega
        · intro p hp
          unfold cardAt
          rw [colOf_mk]
          unfold colOf
          exact cp4 p fun i hi => by unfold lenOf at hp; omega
        · unfold lenOf
          rw [lensByte_mk, getD_set_ne _ _ _ _ _ hne,
            getD_set_self _ _ _ _ hcl1, hmp1]
        · rw [colOf_mk]
          unfold colOf
          exact cp1 c (Ne.symm hne)
        · intro c3 h3
          rw [colOf_mk]
          unfold colOf
          exact cp1 c3 h3
        · intro c3 h3 h3b
          rw [lensByte_mk, getD_set_ne _ _ _ _ _ (fun he => h3b he.symm),
            getD_set_ne _ _ _ _ _ (fun he => h3 he.symm)]
          rfl

/-- C2 (witness for the amended theorem): the concrete 2-card transfer
of `stC2`. -/
theorem multi_run_transfer_witness :
    lenOf stC2a 0 = lenOf stC2 0 + (lenOf stC2 1 - 1) ∧
    hidOf stC2a 0 = hidOf stC2 0 ∧
    (∀ i, i < lenOf stC2 1 - 1 →
      cardAt stC2a 0 (lenOf stC2 0 + i) = cardAt stC2 1 (1 + i)) ∧
    (∀ i, i < lenOf stC2 1 →
      cardAt stC2a 0 (lenOf stC2 0 + i) = cardAt stC2 1 (1 + i)) ∧
    (∀ p, p < lenOf stC2 0 → cardAt stC2a 0 p = cardAt stC2 0 p) ∧
    (∀ p, lenOf stC2 0 + lenOf stC2 1 ≤ p →
      cardAt stC2a 0 p = cardAt stC2 0 p) ∧
    lenOf stC2a 1 = 1 ∧
    colOf stC2a 1 = colOf stC2 1 ∧
    (∀ c3, c3 ≠ 0 → colOf stC2a c3 = colOf stC2 c3) ∧
    (∀ c3, c3 ≠ 1 → c3 ≠ 0 → lensByte stC2a c3 = lensByte stC2 c3) :=
  multi_run_transfer stC2 1 1 0 0 stC2a (by decide) (by decide) (by decide)
    (by decide) (by decide) (by decide)

end Solitare

namespace Solitare

theorem pcFuel_eq : ∀ (f x : Nat),
    pcFuel x f = (List.range f).countP (fun i => x.testBit i)
  | 0, _ => rfl
  | f + 1, x => by
    rw [List.range_succ_eq_map]
    rw [List.countP_cons, List.countP_map]
    have h1 : (List.range f).countP ((fun i => x.testBit i) ∘ Nat.succ) =
        (List.range f).countP (fun i => (x / 2).testBit i) := by
      refine List.countP_congr fun a _ => ?_
      simp only [Function.comp_apply, Nat.succ_eq_add_one, Nat.testBit_add_one]
    rw [h1, ← pcFuel_eq f (x / 2)]
    rw [Nat.testBit_zero]
    by_cases hx : x % 2 = 1
    · simp [pcFuel, hx, Nat.add_comm]
    · have h0 : x % 2 = 0 := by omega
      simp [pcFuel, h0]

theorem countP_or_bit (p : Nat → Bool) :
    ∀ f k, k < f → p k = false →
    (List.range f).countP (fun i => p i || i == k) =
      (List.range f).countP p + 1
  | 0, k, hk, _ => absurd hk (by omega)
  | f + 1, k, hk, hpk => by
    rw [List.range_succ, List.countP_append, List.countP_append]
    rcases Nat.lt_or_ge k f with hkf | hkf
    · rw [countP_or_bit p f k hkf hpk]
      have hf : (List.countP (fun i => p i || i == k) [f]) =
          List.countP p [f] := by
        simp only [List.countP_cons, List.countP_nil]
        have hfk : (f == k) = false := by simp; omega
        rw [hfk, Bool.or_false]
      omega
    · have hkeq : k = f := by omega
      subst hkeq
      have h1 : (List.range k).countP (fun i => p i || i == k) =
          (List.range k).countP p := by
        refine List.countP_congr fun a ha => ?_
        have hak : (a == k) = false := by
          simp only [beq_eq_false_iff_ne, ne_eq]
          have := List.mem_range.mp ha
          omega
        rw [hak, Bool.or_false]
      rw [h1]
      simp [List.countP_cons, hpk]

theorem popcount64_or_bit (d k : Nat) (hk : k < 64)
    (hd : d.testBit k = false) :
    popcount64 (d ||| (1 <<< k)) = popcount64 d + 1 := by
  unfold popcount64
  rw [pcFuel_eq, pcFuel_eq]
  have hpt : ∀ a, ((d ||| (1 <<< k)).testBit a) = (d.testBit a || a == k) := by
    intro a
    rw [Nat.shiftLeft_eq, one_mul, Nat.testBit_or]
    by_cases hax : a = k
    · subst hax
      simp [Nat.testBit_two_pow_self]
    · rw [Nat.testBit_two_pow_of_ne (fun he => hax he.symm)]
      simp [hax]
  rw [List.countP_congr (fun a _ => by rw [hpt a])]
  exact countP_or_bit _ 64 _ hk hd

theorem fold_or_popcount :
    ∀ (xs : List Nat) (d : Nat),
    (∀ x ∈ xs, to_ind8 x < 64) →
    ((xs.map to_ind8).Nodup) →
    (∀ x ∈ xs, d.testBit (to_ind8 x) = false) →
    popcount64 (xs.foldl (fun a c => a ||| (1 <<< to_ind8 c)) d) =
      popcount64 d + xs.length
  | [], d, _, _, _ => by simp
  | x :: rest, d, hb, hn, hd => by
    simp only [List.foldl_cons, List.length_cons]
    have hk := hb x (by simp)
    have hdx := hd x (by simp)
    have hnc : to_ind8 x ∉ rest.map to_ind8 ∧ (rest.map to_ind8).Nodup := by
      rw [List.map_cons, List.nodup_cons] at hn
      exact hn
    rw [fold_or_popcount rest (d ||| (1 <<< to_ind8 x))
      (fun y hy => hb y (by simp [hy]))
      hnc.2
      (fun y hy => by
        rw [Nat.shiftLeft_eq, one_mul, Nat.testBit_or,
          hd y (by simp [hy]),
          Nat.testBit_two_pow_of_ne
            (fun he => hnc.1 (by rw [he]; exact List.mem_map_of_mem to_ind8 hy))]
        rfl)]
    rw [popcount64_or_bit d (to_ind8 x) hk hdx]
    omega

theorem canonical_nodup : canonical_deck.Nodup := by decide

theorem canonical_to_ind_lt : ∀ x ∈ canonical_deck, to_ind8 x < 52 := by
  decide

theorem canonical_to_ind_inj : ∀ x ∈ canonical_deck, ∀ y ∈ canonical_deck,
    to_ind8 x = to_ind8 y → x = y := by
  decide

theorem range'_getD (s n k : Nat) (h : k < n) :
    (List.range' s n).getD k 0 = s + k := by
  rw [List.getD_eq_getElem?_getD,
    List.getElem?_eq_getElem (by simp [List.length_range']; omega)]
  simp [List.getElem_range']

theorem deal_row_spec (deck : List Nat) (i : Nat) :
    ∀ (js : List Nat) (slots : List (List Nat)) (cur : Nat),
    cur + js.length ≤ deck.length →
    (∀ j ∈ js, j < slots.length) →
    (∀ j ∈ js, i < (slots.getD j []).length) →
    ∃ slots',
      deal_row deck i (slots, cur) js = some (slots', cur + js.length) ∧
      slots'.length = slots.length ∧
      (∀ j, j ∉ js → slots'.getD j [] = slots.getD j []) ∧
      (js.Nodup → ∀ k, k < js.length →
        slots'.getD (js.getD k 0) [] =
          (slots.getD (js.getD k 0) []).set i (deck.getD (cur + k) 0))
  | [], slots, cur, _, _, _ => by
    refine ⟨slots, by simp [deal_row], rfl, fun _ _ => rfl,
      fun _ k hk => absurd hk (by simp)⟩
  | j :: rest, slots, cur, hcur, hjs, hcl => by
    have hjlt := hjs j (by simp)
    have hilt := hcl j (by simp)
    have hdg : deck.get? cur = some (deck.getD cur 0) :=
      get?_of_lt _ _ 0 (by simp only [List.length_cons] at hcur; omega)
    have hsg : slots.get? j = some (slots.getD j []) := get?_of_lt _ _ [] hjlt
    obtain ⟨slots', hrec, hlen, hother, hpos⟩ :=
      deal_row_spec deck i rest
        (slots.set j ((slots.getD j []).set i (deck.getD cur 0))) (cur + 1)
        (by simp only [List.length_cons] at hcur; omega)
        (by
          intro j2 hj2
          rw [List.length_set]
          exact hjs j2 (by simp [hj2]))
        (by
          intro j2 hj2
          by_cases hjj : j2 = j
          · subst hjj
            rw [getD_set_self _ _ _ _ hjlt, List.length_set]
            exact hilt
          · rw [getD_set_ne _ _ _ _ _ (fun he => hjj he.symm)]
            exact hcl j2 (by simp [hj2]))
    refine ⟨slots', ?_, ?_, ?_, ?_⟩
    · show deal_row deck i (slots, cur) (j :: rest) = _
      simp only [deal_row]
      rw [hdg]
      simp only [Option.bind_eq_bind', Option.some_bind]
      rw [hsg]
      simp only [Option.some_bind]
      rw [show setc? (slots.getD j []) i (deck.getD cur 0) =
          some ((slots.getD j []).set i (deck.getD cur 0)) from by
        unfold setc?
        rw [if_pos hilt]]
      simp only [Option.some_bind]
      rw [show setc? slots j ((slots.getD j []).set i (deck.getD cur 0)) =
          some (slots.set j ((slots.getD j []).set i (deck.getD cur 0)))
          from by
        unfold setc?
        rw [if_pos hjlt]]
      simp only [Option.some_bind]
      rw [hrec, List.length_cons]
      have harith : cur + 1 + rest.length = cur + (rest.length + 1) := by omega
      rw [harith]
    · rw [hlen, List.length_set]
    · intro j2 hj2
      have hj2r : j2 ∉ rest := fun hx => hj2 (by simp [hx])
      have hj2j : j2 ≠ j := fun hx => hj2 (by simp [hx])
      rw [hother j2 hj2r, getD_set_ne _ _ _ _ _ (fun he => hj2j he.symm)]
    · intro hnd k hk
      have hndc := List.nodup_cons.mp hnd
      cases k with
      | zero =>
        simp only [List.getD_cons_zero]
        rw [hother j hndc.1, getD_set_self _ _ _ _ hjlt, Nat.add_zero]
      | succ k =>
        simp only [List.getD_cons_succ]
        have hkr : k < rest.length := by
          simp only [List.length_cons] at hk
          omega
        have hmem : rest.getD k 0 ∈ rest := getD_mem _ _ _ hkr
        have hne : rest.getD k 0 ≠ j := fun he => hndc.1 (he ▸ hmem)
        rw [hpos hndc.2 k hkr,
          getD_set_ne _ _ _ _ _ (fun he => hne he.symm)]
        have harith : cur + 1 + k = cur + (k + 1) := by omega
        rw [harith]

theorem pass_spec (deck : List Nat) (i cur : Nat) (slots : List (List Nat))
    (hi : i < 7) (hcur : cur + (7 - i) ≤ deck.length)
    (hlen : slots.length = 7)
    (hcl : ∀ j, j < 7 → (slots.getD j []).length = 19) :
    ∃ slots',
      deal_row deck i (slots, cur) (List.range' i (7 - i)) =
        some (slots', cur + (7 - i)) ∧
      slots'.length = 7 ∧
      (∀ j, j < 7 → (slots'.getD j []).length = 19) ∧
      (∀ j, j < i → slots'.getD j [] = slots.getD j []) ∧
      (∀ j, i ≤ j → j < 7 →
        slots'.getD j [] =
          (slots.getD j []).set i (deck.getD (cur + (j - i)) 0)) := by
  have hmem : ∀ j, j ∈ List.range' i (7 - i) ↔ i ≤ j ∧ j < 7 := by
    intro j
    rw [List.mem_range']
    constructor
    · rintro ⟨k, hk, rfl⟩
      omega
    · intro hj
      exact ⟨j - i, by omega, by omega⟩
  have hlr : (List.range' i (7 - i)).length = 7 - i := by
    simp [List.length_range']
  obtain ⟨slots', hrun, hlen', hother, hpos⟩ :=
    deal_row_spec deck i (List.range' i (7 - i)) slots cur
      (by rw [hlr]; exact hcur)
      (fun j hj => by rw [hlen]; exact ((hmem j).mp hj).2)
      (fun j hj => by rw [hcl j ((hmem j).mp hj).2]; omega)
  rw [hlr] at hrun
  have hposj : ∀ j, i ≤ j → j < 7 →
      slots'.getD j [] =
        (slots.getD j []).set i (deck.getD (cur + (j - i)) 0) := by
    intro j h1 h2
    have hk := hpos (List.nodup_range' i (7 - i)) (j - i) (by rw [hlr]; omega)
    rw [range'_getD i (7 - i) (j - i) (by omega)] at hk
    rw [show i + (j - i) = j from by omega] at hk
    exact hk
  refine ⟨slots', hrun, by rw [hlen', hlen], ?_, ?_, hposj⟩
  · intro j hj
    by_cases hji : i ≤ j
    · rw [hposj j hji hj, List.length_set]
      exact hcl j hj
    · rw [hother j (by rw [hmem]; omega)]
      exact hcl j hj
  · intro j hj
    exact hother j (by rw [hmem]; omega)

/-- C4 (counterexample): the claim places column 1's two cards at the
contiguous positions `[1, 2]` of the shuffled sequence, but the deal is
row-major: with the identity permutation, column 1's row-1 card is
element 7 (value 8), not element 2 (value 3). -/
theorem deal_slice_counterexample :
    (deal canonical_deck).map (fun st => cardAt st 1 1) = some 8 ∧
    canonical_deck.getD (1 * (1 + 1) / 2 + 1) 0 = 3 ∧ (8 : Nat) ≠ 3 := by
  refine ⟨?_, rfl, by decide⟩
  rfl

/-- C4 (amended): the deal is deterministic but row-major, not
column-contiguous.  For any 52-card permutation the deal succeeds; all
foundations are 0; the packed length bytes are `1, 0x12, ..., 0x67`
(column `i` has length `i + 1`, hidden count `i`); column `j`'s card at
row `i` is element `dealPos i j = (sum of 7-k for k < i) + (j - i)` of
the sequence (pass `i` deals one card to each of columns `i..6`); the
24 remaining cards populate the reserve, whose popcount is 24, so
popcount plus the sum of column lengths is 52. -/
theorem deal_layout (deck : List Nat)
    (hperm : deck.Perm canonical_deck) :
    ∃ st, deal deck = some st ∧
      st.targets = [0, 0, 0, 0] ∧
      st.slots_lens = [1, 18, 35, 52, 69, 86, 103] ∧
      (∀ j, j < 7 → (colOf st j).length = 19) ∧
      (∀ i j, i ≤ j → j < 7 → cardAt st j i = deck.getD (dealPos i j) 0) ∧
      popcount64 st.deck = 24 ∧
      popcount64 st.deck + (∑ i in Finset.range 7, lenOf st i) = 52 := by
  have hlen52 : deck.length = 52 := hperm.length_eq
  obtain ⟨s0, hr0, hln0, hcl0, hlt0, hpos0⟩ :=
    pass_spec deck 0 0 initState.slots (by omega) (by rw [hlen52]; omega) (by rfl) (by decide)
  obtain ⟨s1, hr1, hln1, hcl1, hlt1, hpos1⟩ :=
    pass_spec deck 1 7 s0 (by omega) (by rw [hlen52]; omega) hln0 hcl0
  obtain ⟨s2, hr2, hln2, hcl2, hlt2, hpos2⟩ :=
    pass_spec deck 2 13 s1 (by omega) (by rw [hlen52]; omega) hln1 hcl1
  obtain ⟨s3, hr3, hln3, hcl3, hlt3, hpos3⟩ :=
    pass_spec deck 3 18 s2 (by omega) (by rw [hlen52]; omega) hln2 hcl2
  obtain ⟨s4, hr4, hln4, hcl4, hlt4, hpos4⟩ :=
    pass_spec deck 4 22 s3 (by omega) (by rw [hlen52]; omega) hln3 hcl3
  obtain ⟨s5, hr5, hln5, hcl5, hlt5, hpos5⟩ :=
    pass_spec deck 5 25 s4 (by omega) (by rw [hlen52]; omega) hln4 hcl4
  obtain ⟨s6, hr6, hln6, hcl6, hlt6, hpos6⟩ :=
    pass_spec deck 6 27 s5 (by omega) (by rw [hlen52]; omega) hln5 hcl5
  have e0 : deal_all deck (initState.slots, [0, 0, 0, 0, 0, 0, 0], 0) [0, 1, 2, 3, 4, 5, 6] =
      deal_all deck (s0, [1, 0, 0, 0, 0, 0, 0], 7) [1, 2, 3, 4, 5, 6] := by
    simp only [deal_all]
    rw [hr0]
    rfl
  have e1 : deal_all deck (s0, [1, 0, 0, 0, 0, 0, 0], 7) [1, 2, 3, 4, 5, 6] =
      deal_all deck (s1, [1, 18, 0, 0, 0, 0, 0], 13) [2, 3, 4, 5, 6] := by
    simp only [deal_all]
    rw [hr1]
    rfl
  have e2 : deal_all deck (s1, [1, 18, 0, 0, 0, 0, 0], 13) [2, 3, 4, 5, 6] =
      deal_all deck (s2, [1, 18, 35, 0, 0, 0, 0], 18) [3, 4, 5, 6] := by
    simp only [deal_all]
    rw [hr2]
    rfl
  have e3 : deal_all deck (s2, [1, 18, 35, 0, 0, 0, 0], 18) [3, 4, 5, 6] =
      deal_all deck (s3, [1, 18, 35, 52, 0, 0, 0], 22) [4, 5, 6] := by
    simp only [deal_all]
    rw [hr3]
    rfl
  have e4 : deal_all deck (s3, [1, 18, 35, 52, 0, 0, 0], 22) [4, 5, 6] =
      deal_all deck (s4, [1, 18, 35, 52, 69, 0, 0], 25) [5, 6] := by
    simp only [deal_all]
    rw [hr4]
    rfl
  have e5 : deal_all deck (s4, [1, 18, 35, 52, 69, 0, 0], 25) [5, 6] =
      deal_all deck (s5, [1, 18, 35, 52, 69, 86, 0], 27) [6] := by
    simp only [deal_all]
    rw [hr5]
    rfl
  have e6 : deal_all deck (s5, [1, 18, 35, 52, 69, 86, 0], 27) [6] =
      deal_all deck (s6, [1, 18, 35, 52, 69, 86, 103], 28) [] := by
    simp only [deal_all]
    rw [hr6]
    rfl
  have hdeal : deal deck =
      some ⟨(deck.drop 28).foldl (fun a c => a ||| (1 <<< to_ind8 c)) 0,
        [0, 0, 0, 0], s6, [1, 18, 35, 52, 69, 86, 103]⟩ := by
    unfold deal
    rw [show List.range 7 = [0, 1, 2, 3, 4, 5, 6] from rfl]
    rw [show initState.slots_lens = ([0, 0, 0, 0, 0, 0, 0] : List Nat)
      from rfl]
    rw [e0, e1, e2, e3, e4, e5, e6]
    rw [show deal_all deck (s6, [1, 18, 35, 52, 69, 86, 103], 28)
        ([] : List Nat) =
      some (s6, [1, 18, 35, 52, 69, 86, 103], 28) from rfl]
    rfl
  have hcol0 : s6.getD 0 [] =
      (List.replicate 19 0).set 0 (deck.getD 0 0) := by
    rw [hlt6 0 (by omega),
      hlt5 0 (by omega),
      hlt4 0 (by omega),
      hlt3 0 (by omega),
      hlt2 0 (by omega),
      hlt1 0 (by omega),
      hpos0 0 (by omega) (by omega)]
    rfl
  have hcol1 : s6.getD 1 [] =
      ((List.replicate 19 0).set 0 (deck.getD 1 0)).set 1 (deck.getD 7 0) := by
    rw [hlt6 1 (by omega),
      hlt5 1 (by omega),
      hlt4 1 (by omega),
      hlt3 1 (by omega),
      hlt2 1 (by omega),
      hpos1 1 (by omega) (by omega),
      hpos0 1 (by omega) (by omega)]
    rfl
  have hcol2 : s6.getD 2 [] =
      (((List.replicate 19 0).set 0 (deck.getD 2 0)).set 1 (deck.getD 8 0)).set 2 (deck.getD 13 0) := by
    rw [hlt6 2 (by omega),
      hlt5 2 (by omega),
      hlt4 2 (by omega),
      hlt3 2 (by omega),
      hpos2 2 (by omega) (by omega),
      hpos1 2 (by omega) (by omega),
      hpos0 2 (by omega) (by omega)]
    rfl
  have hcol3 : s6.getD 3 [] =
      ((((List.replicate 19 0).set 0 (deck.getD 3 0)).set 1 (deck.getD 9 0)).set 2 (deck.getD 14 0)).set 3 (deck.getD 18 0) := by
    rw [hlt6 3 (by omega),
      hlt5 3 (by omega),
      hlt4 3 (by omega),
      hpos3 3 (by omega) (by omega),
      hpos2 3 (by omega) (by omega),
      hpos1 3 (by omega) (by omega),
      hpos0 3 (by omega) (by omega)]
    rfl
  have hcol4 : s6.getD 4 [] =
      (((((List.replicate 19 0).set 0 (deck.getD 4 0)).set 1 (deck.getD 10 0)).set 2 (deck.getD 15 0)).set 3 (deck.getD 19 0)).set 4 (deck.getD 22 0) := by
    rw [hlt6 4 (by omega),
      hlt5 4 (by omega),
      hpos4 4 (by omega) (by omega),
      hpos3 4 (by omega) (by omega),
      hpos2 4 (by omega) (by omega),
      hpos1 4 (by omega) (by omega),
      hpos0 4 (by omega) (by omega)]
    rfl
  have hcol5 : s6.getD 5 [] =
      ((((((List.replicate 19 0).set 0 (deck.getD 5 0)).set 1 (deck.getD 11 0)).set 2 (deck.getD 16 0)).set 3 (deck.getD 20 0)).set 4 (deck.getD 23 0)).set 5 (deck.getD 25 0) := by
    rw [hlt6 5 (by omega),
      hpos5 5 (by omega) (by omega),
      hpos4 5 (by omega) (by omega),
      hpos3 5 (by omega) (by omega),
      hpos2 5 (by omega) (by omega),
      hpos1 5 (by omega) (by omega),
      hpos0 5 (by omega) (by omega)]
    rfl
  have hcol6 : s6.getD 6 [] =
      (((((((List.replicate 19 0).set 0 (deck.getD 6 0)).set 1 (deck.getD 12 0)).set 2 (deck.getD 17 0)).set 3 (deck.getD 21 0)).set 4 (deck.getD 24 0)).set 5 (deck.getD 26 0)).set 6 (deck.getD 27 0) := by
    rw [hpos6 6 (by omega) (by omega),
      hpos5 6 (by omega) (by omega),
      hpos4 6 (by omega) (by omega),
      hpos3 6 (by omega) (by omega),
      hpos2 6 (by omega) (by omega),
      hpos1 6 (by omega) (by omega),
      hpos0 6 (by omega) (by omega)]
    rfl
  have hdnd : (deck.drop 28).Nodup :=
    List.Nodup.sublist (List.drop_sublist 28 deck)
      (hperm.nodup_iff.mpr canonical_nodup)
  have hmemc : ∀ x ∈ deck.drop 28, x ∈ canonical_deck :=
    fun x hx => hperm.subset (List.drop_subset _ _ hx)
  have hmapnd : ((deck.drop 28).map to_ind8).Nodup :=
    List.Nodup.map_on
      (fun x hx y hy he =>
        canonical_to_ind_inj x (hmemc x hx) y (hmemc y hy) he)
      hdnd
  have hpc : popcount64 ((deck.drop 28).foldl
      (fun a c => a ||| (1 <<< to_ind8 c)) 0) = 24 := by
    rw [fold_or_popcount (deck.drop 28) 0
      (fun x hx => by have := canonical_to_ind_lt x (hmemc x hx); omega)
      hmapnd
      (fun x _ => Nat.zero_testBit _)]
    rw [List.length_drop, hlen52]
    rfl
  refine ⟨_, hdeal, rfl, rfl, ?_, ?_, hpc, ?_⟩
  · intro j hj
    rw [colOf_mk]
    exact hcl6 j hj
  · intro i j hij hj
    interval_cases j <;> interval_cases i <;>
      simp only [cardAt, colOf_mk, hcol0, hcol1, hcol2, hcol3, hcol4,
        hcol5, hcol6] <;> rfl
  · rw [show SolitareState.deck ⟨(deck.drop 28).foldl
        (fun a c => a ||| (1 <<< to_ind8 c)) 0, [0, 0, 0, 0], s6,
        [1, 18, 35, 52, 69, 86, 103]⟩ =
      (deck.drop 28).foldl (fun a c => a ||| (1 <<< to_ind8 c)) 0
      from rfl]
    rw [hpc]
    simp only [Finset.sum_range_succ, Finset.sum_range_zero, lenOf, lensByte]
    decide

/-- C4 (witness for the amended theorem): the identity permutation. -/
theorem deal_layout_witness :
    ∃ st, deal canonical_deck = some st ∧
      st.targets = [0, 0, 0, 0] ∧
      st.slots_lens = [1, 18, 35, 52, 69, 86, 103] ∧
      (∀ j, j < 7 → (colOf st j).length = 19) ∧
      (∀ i j, i ≤ j → j < 7 →
        cardAt st j i = canonical_deck.getD (dealPos i j) 0) ∧
      popcount64 st.deck = 24 ∧
      popcount64 st.deck + (∑ i in Finset.range 7, lenOf st i) = 52 :=
  deal_layout canonical_deck (List.Perm.refl _)

end Solitare

namespace Solitare

/-- C10 (refuted - code bug): from a fresh deal of the fixed permutation
`c10deck`, the 17 picks of `c10picks` are all accepted and reach a state
`g` where column 6 holds 15 cards and the run starting at row 6 is the
armed selection; that selection is valid as a source, `Slot 0 0` is
valid as a destination, and the partition invariant still holds - yet
executing the pick panics (`none`): the copy loop runs `n_cards = 15`
iterations, reading column 6 at rows 15..29 and writing column 0 at
rows 1..15, and the read of row 19 is out of bounds for the 19-cell
array. -/
theorem copy_loop_out_of_bounds :
    c10run.map GameState.selected = some (.Slot 6 6) ∧
    c10run.map (fun g => (is_selection_valid g.state (.Slot 6 6)).1) =
      some true ∧
    c10run.map (fun g => (is_selection_valid g.state (.Slot 0 0)).2) =
      some true ∧
    c10run.map (fun g => decide (CardConservation g.state)) = some true ∧
    c10run.bind (fun g => handle_pick g (.Slot 0 0)) = none :=
  ⟨rfl, rfl, rfl, rfl, rfl⟩

end Solitare

namespace Solitare

theorem tz_spec : ∀ (f x : Nat), 0 < x → x < 2 ^ f →
    x.testBit (tzFuel x f) = true ∧ ∀ m, m < tzFuel x f → x.testBit m = false
  | 0, x, hx, hf => absurd hf (by omega)
  | f + 1, x, hx, hf => by
    by_cases h2 : x % 2 = 1
    · have htz : tzFuel x (f + 1) = 0 := by simp [tzFuel, h2]
      rw [htz]
      exact ⟨by rw [Nat.testBit_zero]; exact decide_eq_true h2,
        fun m hm => absurd hm (by omega)⟩
    · have hx2 : 0 < x / 2 := by omega
      have hf2 : x / 2 < 2 ^ f := by
        rw [pow_succ] at hf
        omega
      obtain ⟨h1, hlow⟩ := tz_spec f (x / 2) hx2 hf2
      have htz : tzFuel x (f + 1) = tzFuel (x / 2) f + 1 := by
        simp [tzFuel, h2]
      rw [htz]
      refine ⟨by rw [Nat.testBit_add_one]; exact h1, ?_⟩
      intro m hm
      cases m with
      | zero => rw [Nat.testBit_zero]; exact decide_eq_false h2
      | succ m => rw [Nat.testBit_add_one]; exact hlow m (by omega)

theorem deck_scan_fst (d : Nat) :
    ∀ j, (deck_scan d j).1 = d >>> (deck_scan d j).2
  | 0 => Nat.shiftRight_zero.symm
  | j + 1 => by
    simp only [deck_scan]
    rw [deck_scan_fst d j, ← Nat.shiftRight_add]

theorem countP_range_add (p : Nat → Bool) (a b : Nat) :
    (List.range (a + b)).countP p =
      (List.range a).countP p +
        (List.range b).countP (fun m => p (a + m)) := by
  rw [List.range_add, List.countP_append, List.countP_map]
  rfl

theorem deck_scan_bits (d : Nat) (hd : d < 2 ^ 64) :
    ∀ j, j ≤ popcount64 d →
    (List.range (deck_scan d j).2).countP (fun m => d.testBit m) = j ∧
    (deck_scan d j).2 ≤ 64 ∧
    (0 < j → d.testBit ((deck_scan d j).2 - 1) = true)
  | 0, _ => ⟨by simp [deck_scan], by simp [deck_scan], fun h => absurd h (by omega)⟩
  | j + 1, hj => by
    obtain ⟨ih1, ih2, _⟩ := deck_scan_bits d hd j (by omega)
    have hy : (deck_scan d j).1 = d >>> (deck_scan d j).2 := deck_scan_fst d j
    have hsplit : popcount64 d =
        (List.range (deck_scan d j).2).countP (fun m => d.testBit m) +
        (List.range (64 - (deck_scan d j).2)).countP
          (fun m => d.testBit ((deck_scan d j).2 + m)) := by
      have hca := countP_range_add (fun m => d.testBit m)
        (deck_scan d j).2 (64 - (deck_scan d j).2)
      rw [show (deck_scan d j).2 + (64 - (deck_scan d j).2) = 64
        from by omega] at hca
      unfold popcount64
      rw [pcFuel_eq]
      exact hca
    have hcnt : 0 < (List.range (64 - (deck_scan d j).2)).countP
        (fun m => d.testBit ((deck_scan d j).2 + m)) := by
      omega
    obtain ⟨m0, _, hpm0⟩ := List.countP_pos_iff.mp hcnt
    have hy0 : 0 < (deck_scan d j).1 := by
      rw [hy]
      by_contra h0
      have hz : d >>> (deck_scan d j).2 = 0 := by omega
      have := Nat.testBit_shiftRight (x := d) (i := (deck_scan d j).2) (j := m0)
      rw [hz, Nat.zero_testBit] at this
      rw [← this] at hpm0
      exact absurd hpm0 (by simp)
    have hylt : (deck_scan d j).1 < 2 ^ 64 := by
      rw [hy, Nat.shiftRight_eq_div_pow]
      exact lt_of_le_of_lt (Nat.div_le_self _ _) hd
    obtain ⟨ht1, ht2⟩ := tz_spec 64 (deck_scan d j).1 hy0 hylt
    have hstep : (deck_scan d (j + 1)).2 =
        (deck_scan d j).2 + (trailing_zeros (deck_scan d j).1 + 1) := rfl
    have hbit : d.testBit
        ((deck_scan d j).2 + trailing_zeros (deck_scan d j).1) = true := by
      rw [← Nat.testBit_shiftRight, ← hy]
      exact ht1
    have hat64 : (deck_scan d j).2 + trailing_zeros (deck_scan d j).1 < 64 := by
      by_contra hge
      have hfb : d.testBit
          ((deck_scan d j).2 + trailing_zeros (deck_scan d j).1) = false :=
        Nat.testBit_lt_two_pow
          (lt_of_lt_of_le hd (Nat.pow_le_pow_right (by norm_num) (by omega)))
      rw [hfb] at hbit
      exact absurd hbit (by simp)
    refine ⟨?_, by omega, ?_⟩
    · rw [hstep, countP_range_add, ih1]
      have hone : (List.range (trailing_zeros (deck_scan d j).1 + 1)).countP
          (fun m => d.testBit ((deck_scan d j).2 + m)) = 1 := by
        rw [List.range_succ, List.countP_append]
        have hz : (List.range (trailing_zeros (deck_scan d j).1)).countP
            (fun m => d.testBit ((deck_scan d j).2 + m)) = 0 := by
          rw [List.countP_eq_zero]
          intro m hm
          have hfb := ht2 m (List.mem_range.mp hm)
          rw [hy, Nat.testBit_shiftRight] at hfb
          simp [hfb]
        rw [hz]
        simp [hbit]
      omega
    · intro _
      rw [hstep]
      have harith : (deck_scan d j).2 + (trailing_zeros (deck_scan d j).1 + 1)
          - 1 = (deck_scan d j).2 + trailing_zeros (deck_scan d j).1 := by
        omega
      rw [harith]
      exact hbit

theorem deck_nth_ind_testBit (d i : Nat) (hd : d < 2 ^ 64)
    (hi : i < popcount64 d) : d.testBit (deck_nth_ind d i) = true := by
  obtain ⟨_, _, h3⟩ := deck_scan_bits d hd (i + 1) (by omega)
  exact h3 (by omega)

theorem clearBit_testBit (d ind k : Nat) (hk : k < 64) :
    (clearBit d ind).testBit k = (d.testBit k && !(decide (k = ind))) := by
  unfold clearBit U64MAX
  rw [Nat.testBit_and, Nat.testBit_xor, Nat.testBit_two_pow_sub_one,
    Nat.shiftLeft_eq, one_mul, Nat.testBit_two_pow]
  rw [decide_eq_true hk]
  by_cases h : k = ind
  · subst h
    simp
  · rw [decide_eq_false h, decide_eq_false (fun hh => h hh.symm)]
    simp

theorem to_ind8_cardByte : ∀ k < 52, to_ind8 (cardByte k) = k := by decide

theorem cardByte_inj : ∀ k < 52, ∀ k2 < 52,
    cardByte k = cardByte k2 → k = k2 := by decide

theorem rank8_cardByte : ∀ k < 52,
    1 ≤ rank8 (cardByte k) ∧ rank8 (cardByte k) ≤ 13 := by decide

theorem suit8_cardByte : ∀ k < 52, suit8 (cardByte k) = k / 13 := by decide

theorem rank8_cardByte_eq : ∀ k < 52,
    rank8 (cardByte k) = k % 13 + 1 := by decide

set_option maxRecDepth 4096 in
theorem byte_as_cardByte : ∀ card < 256, suit8 card < 4 →
    1 ≤ rank8 card → rank8 card ≤ 13 →
    card = cardByte (13 * suit8 card + (rank8 card - 1)) ∧
    13 * suit8 card + (rank8 card - 1) < 52 := by decide

theorem from_index_eq (ind card : Nat) (h : from_index ind = some card) :
    ind < 52 ∧ card = cardByte ind := by
  unfold from_index from_suit_rank at h
  split at h
  · rename_i hc
    obtain rfl := Option.some_inj.mp h
    exact ⟨by omega, rfl⟩
  · exact absurd h (by simp)

theorem sum_cols_one (f g : Nat → Nat) (c0 : Nat) (hc0 : c0 < 7)
    (hother : ∀ c3, c3 < 7 → c3 ≠ c0 → g c3 = f c3) :
    (∑ c in Finset.range 7, g c) + f c0 =
      (∑ c in Finset.range 7, f c) + g c0 := by
  rw [← Finset.sum_erase_add (Finset.range 7) g (Finset.mem_range.mpr hc0),
      ← Finset.sum_erase_add (Finset.range 7) f (Finset.mem_range.mpr hc0)]
  have he : ∑ c in (Finset.range 7).erase c0, g c =
      ∑ c in (Finset.range 7).erase c0, f c :=
    Finset.sum_congr rfl fun x hx => by
      obtain ⟨hne, hmem⟩ := Finset.mem_erase.mp hx
      exact hother x (Finset.mem_range.mp hmem) hne
  omega

theorem sum_cols_two (f g : Nat → Nat) (c0 c1 : Nat) (h0 : c0 < 7)
    (h1 : c1 < 7) (hne : c0 ≠ c1)
    (hother : ∀ c3, c3 < 7 → c3 ≠ c0 → c3 ≠ c1 → g c3 = f c3) :
    (∑ c in Finset.range 7, g c) + f c0 + f c1 =
      (∑ c in Finset.range 7, f c) + g c0 + g c1 := by
  rw [← Finset.sum_erase_add (Finset.range 7) g (Finset.mem_range.mpr h0),
      ← Finset.sum_erase_add _ g
        (Finset.mem_erase.mpr ⟨Ne.symm hne, Finset.mem_range.mpr h1⟩),
      ← Finset.sum_erase_add (Finset.range 7) f (Finset.mem_range.mpr h0),
      ← Finset.sum_erase_add _ f
        (Finset.mem_erase.mpr ⟨Ne.symm hne, Finset.mem_range.mpr h1⟩)]
  have he : ∑ c in ((Finset.range 7).erase c0).erase c1, g c =
      ∑ c in ((Finset.range 7).erase c0).erase c1, f c :=
    Finset.sum_congr rfl fun x hx => by
      obtain ⟨hne1, hx2⟩ := Finset.mem_erase.mp hx
      obtain ⟨hne0, hmem⟩ := Finset.mem_erase.mp hx2
      exact hother x (Finset.mem_range.mp hmem) hne0 hne1
  omega

theorem targAt_mk (d : Nat) (t : List Nat) (sl : List (List Nat))
    (l : List Nat) (s : Nat) :
    targAt ⟨d, t, sl, l⟩ s = t.getD s 0 := rfl

theorem deck_mk (d : Nat) (t : List Nat) (sl : List (List Nat))
    (l : List Nat) : SolitareState.deck ⟨d, t, sl, l⟩ = d := rfl

theorem targets_mk (d : Nat) (t : List Nat) (sl : List (List Nat))
    (l : List Nat) : SolitareState.targets ⟨d, t, sl, l⟩ = t := rfl

end Solitare

namespace Solitare

/-- C1 (counterexample): the partition invariant is not preserved by
every successful move.  In `stC1` (which satisfies the invariant and
has the legal run `♠5 ♥6` on column 0) picking column 0 itself as the
destination of its own run is accepted - the ♠5 sits one rank below
the ♥6 top card with the other colour - and the executed move leaves
the ♠5 (index 4) present twice. -/
theorem conservation_counterexample :
    CardConservation stC1 ∧
    (is_selection_valid stC1 (.Slot 0 0)).1 = true ∧
    (is_selection_valid stC1 (.Slot 0 0)).2 = true ∧
    (try_move stC1 (.Slot 0 0) (.Slot 0 0)).map Prod.snd =
      some Highlight.None ∧
    (try_move stC1 (.Slot 0 0) (.Slot 0 0)).map (fun p => stCount p.1 4) =
      some 2 :=
  ⟨by decide, rfl, rfl, rfl, by decide⟩

end Solitare

namespace Solitare

theorem slots_mk (d : Nat) (t : List Nat) (sl : List (List Nat))
    (l : List Nat) : SolitareState.slots ⟨d, t, sl, l⟩ = sl := rfl

theorem targ_term_bump (targets : List Nat) (s0 tv k : Nat)
    (hlen : targets.length = 4) (hs0 : s0 < 4)
    (hg : targets.getD s0 0 = tv) (hk : k < 52) :
    (if k % 13 + 1 ≤ (targets.set s0 (tv + 1)).getD (k / 13) 0 then 1 else 0)
      = (if k % 13 + 1 ≤ targets.getD (k / 13) 0 then 1 else 0)
        + (if k = 13 * s0 + tv ∧ tv ≤ 12 then 1 else 0) := by
  by_cases hks : k / 13 = s0
  · rw [hks, getD_set_self _ _ _ _ (by omega), hg]
    by_cases hkeq : k % 13 = tv
    · rw [if_pos (show k = 13 * s0 + tv ∧ tv ≤ 12 by omega)]
      split_ifs <;> omega
    · have hneg : ¬(k = 13 * s0 + tv ∧ tv ≤ 12) := fun hc => hkeq (by omega)
      rw [if_neg hneg]
      split_ifs <;> omega
  · rw [getD_set_ne _ _ _ _ _ (fun he => hks he.symm)]
    have hneg : ¬(k = 13 * s0 + tv ∧ tv ≤ 12) := fun hc => hks (by omega)
    rw [if_neg hneg]
    split_ifs <;> omega

theorem targ_term_drop (targets : List Nat) (s0 tv k : Nat)
    (hlen : targets.length = 4) (hs0 : s0 < 4)
    (hg : targets.getD s0 0 = tv) (htv1 : 1 ≤ tv) (htv13 : tv ≤ 13)
    (hk : k < 52) :
    (if k % 13 + 1 ≤ (targets.set s0 (tv - 1)).getD (k / 13) 0 then 1 else 0)
        + (if k = 13 * s0 + (tv - 1) then 1 else 0)
      = (if k % 13 + 1 ≤ targets.getD (k / 13) 0 then 1 else 0) := by
  by_cases hks : k / 13 = s0
  · rw [hks, getD_set_self _ _ _ _ (by omega), hg]
    split_ifs <;> omega
  · rw [getD_set_ne _ _ _ _ _ (fun he => hks he.symm)]
    have hneg : ¬(k = 13 * s0 + (tv - 1)) := fun hc => hks (by omega)
    rw [if_neg hneg]
    split_ifs <;> omega

theorem deck_term_clear (d ind k : Nat) (hk : k < 52)
    (hbit : d.testBit ind = true) :
    (if (clearBit d ind).testBit k then 1 else 0)
        + (if k = ind then 1 else 0)
      = (if d.testBit k then 1 else 0) := by
  by_cases h : k = ind
  · subst h
    have hc : (clearBit d k).testBit k = false := by
      rw [clearBit_testBit _ _ _ (by omega)]
      simp
    simp [hc, hbit]
  · have hc : (clearBit d ind).testBit k = d.testBit k := by
      rw [clearBit_testBit _ _ _ (by omega), decide_eq_false h]
      simp
    simp [hc, h]

theorem sum_append_cell (col : List Nat) (len card x : Nat)
    (hlen : len < col.length) :
    ∑ r in Finset.range (len + 1),
        (if (col.set len card).getD r 0 = x then 1 else 0)
      = (∑ r in Finset.range len, (if col.getD r 0 = x then 1 else 0))
        + (if card = x then 1 else 0) := by
  rw [Finset.sum_range_succ, getD_set_self _ _ _ _ hlen]
  congr 1
  exact Finset.sum_congr rfl fun r hr => by
    rw [getD_set_ne _ _ _ _ _ (by have := Finset.mem_range.mp hr; omega)]

end Solitare

namespace Solitare

theorem cons_deck_to_target (st : SolitareState) (ind tv : Nat)
    (hts : st.targets.length = 4)
    (hind52 : ind < 52)
    (hbit : st.deck.testBit ind = true)
    (hgd : st.targets.getD (ind / 13) 0 = tv)
    (hmod : ind % 13 = tv)
    (hcons : CardConservation st) :
    CardConservation ⟨clearBit st.deck ind,
      st.targets.set (ind / 13) (tv + 1), st.slots, st.slots_lens⟩ := by
  intro k hk
  have h1 := hcons k hk
  simp only [stCount, targAt, cardAt, colOf, lenOf, lensByte, deck_mk,
    targets_mk, slots_mk, slots_lens_mk] at h1 ⊢
  have hdterm := deck_term_clear st.deck ind k hk hbit
  have htterm := targ_term_bump st.targets (ind / 13) tv k hts (by omega) hgd hk
  have hiff : (if k = 13 * (ind / 13) + tv ∧ tv ≤ 12 then (1 : Nat) else 0)
      = (if k = ind then 1 else 0) := by
    have he : 13 * (ind / 13) + tv = ind := by omega
    rw [he]
    by_cases hki : k = ind
    · have hp : k = ind ∧ tv ≤ 12 := ⟨hki, by omega⟩
      rw [if_pos hp, if_pos hki]
    · have hneg : ¬(k = ind ∧ tv ≤ 12) := fun hc => hki hc.1
      rw [if_neg hneg, if_neg hki]
  omega

theorem cons_slot_to_target (st : SolitareState) (c tv card : Nat)
    (hts : st.targets.length = 4)
    (hll7 : st.slots_lens.length = 7)
    (hc7 : c < 7)
    (hsuit4 : suit8 card < 4)
    (hgd : st.targets.getD (suit8 card) 0 = tv)
    (htv13 : tv ≤ 13)
    (hrank : rank8 card = tv + 1)
    (hcard : (st.slots.getD c []).getD
      ((st.slots_lens.getD c 0 &&& 15) - 1) 0 = card)
    (hpos : 0 < st.slots_lens.getD c 0 &&& 15)
    (hl256 : st.slots_lens.getD c 0 < 256)
    (hcard256 : card < 256)
    (hcons : CardConservation st) :
    CardConservation ⟨st.deck, st.targets.set (suit8 card) (tv + 1), st.slots,
      st.slots_lens.set c (shrink_lens_byte (st.slots_lens.getD c 0))⟩ := by
  intro k hk
  have h1 := hcons k hk
  simp only [stCount, targAt, cardAt, colOf, lenOf, lensByte, deck_mk,
    targets_mk, slots_mk, slots_lens_mk] at h1 ⊢
  obtain ⟨hsp1, hsp2⟩ := shrink_spec (st.slots_lens.getD c 0) hl256 hpos
  have htterm := targ_term_bump st.targets (suit8 card) tv k hts hsuit4 hgd hk
  have hsum : (∑ c3 in Finset.range 7, ∑ r' in Finset.range
        ((st.slots_lens.set c
          (shrink_lens_byte (st.slots_lens.getD c 0))).getD c3 0 &&& 15),
        if (st.slots.getD c3 []).getD r' 0 = cardByte k then 1 else 0)
      + (∑ r' in Finset.range (st.slots_lens.getD c 0 &&& 15),
        if (st.slots.getD c []).getD r' 0 = cardByte k then 1 else 0)
      = (∑ c3 in Finset.range 7, ∑ r' in Finset.range
          (st.slots_lens.getD c3 0 &&& 15),
        if (st.slots.getD c3 []).getD r' 0 = cardByte k then 1 else 0)
      + (∑ r' in Finset.range
        ((st.slots_lens.set c
          (shrink_lens_byte (st.slots_lens.getD c 0))).getD c 0 &&& 15),
        if (st.slots.getD c []).getD r' 0 = cardByte k then 1 else 0) := by
    have hother : ∀ c3, c3 < 7 → c3 ≠ c →
        (∑ r' in Finset.range
          ((st.slots_lens.set c
            (shrink_lens_byte (st.slots_lens.getD c 0))).getD c3 0 &&& 15),
          if (st.slots.getD c3 []).getD r' 0 = cardByte k then (1 : Nat)
          else 0)
        = ∑ r' in Finset.range (st.slots_lens.getD c3 0 &&& 15),
          if (st.slots.getD c3 []).getD r' 0 = cardByte k then 1 else 0 := by
      intro c3 _ hne
      rw [getD_set_ne _ _ _ _ _ (fun he => hne he.symm)]
    exact sum_cols_one
      (fun c3 => ∑ r' in Finset.range (st.slots_lens.getD c3 0 &&& 15),
        if (st.slots.getD c3 []).getD r' 0 = cardByte k then 1 else 0)
      (fun c3 => ∑ r' in Finset.range
          ((st.slots_lens.set c
            (shrink_lens_byte (st.slots_lens.getD c 0))).getD c3 0 &&& 15),
        if (st.slots.getD c3 []).getD r' 0 = cardByte k then 1 else 0)
      c hc7 hother
  have hgc : (∑ r' in Finset.range
        ((st.slots_lens.set c
          (shrink_lens_byte (st.slots_lens.getD c 0))).getD c 0 &&& 15),
        if (st.slots.getD c []).getD r' 0 = cardByte k then 1 else 0)
      = ∑ r' in Finset.range ((st.slots_lens.getD c 0 &&& 15) - 1),
        if (st.slots.getD c []).getD r' 0 = cardByte k then 1 else 0 := by
    rw [getD_set_self _ _ _ _ (by omega), hsp1]
  have hfc : (∑ r' in Finset.range (st.slots_lens.getD c 0 &&& 15),
        if (st.slots.getD c []).getD r' 0 = cardByte k then 1 else 0)
      = (∑ r' in Finset.range ((st.slots_lens.getD c 0 &&& 15) - 1),
        if (st.slots.getD c []).getD r' 0 = cardByte k then 1 else 0)
      + (if card = cardByte k then 1 else 0) := by
    conv_lhs => rw [show st.slots_lens.getD c 0 &&& 15
      = ((st.slots_lens.getD c 0 &&& 15) - 1) + 1 from by omega]
    rw [Finset.sum_range_succ, hcard]
  have hrel : (if card = cardByte k then (1 : Nat) else 0)
      = (if k = 13 * suit8 card + tv ∧ tv ≤ 12 then 1 else 0) := by
    by_cases htv12 : tv ≤ 12
    · obtain ⟨hcb, hk052⟩ :=
        byte_as_cardByte card hcard256 hsuit4 (by omega) (by omega)
      rw [hrank, Nat.add_sub_cancel] at hcb hk052
      by_cases hkk : k = 13 * suit8 card + tv
      · have hp : k = 13 * suit8 card + tv ∧ tv ≤ 12 := ⟨hkk, htv12⟩
        have hcc : card = cardByte k := by rw [hkk]; exact hcb
        rw [if_pos hp, if_pos hcc]
      · have hneq : ¬(card = cardByte k) := fun he =>
          hkk (cardByte_inj k hk (13 * suit8 card + tv) hk052
            (by rw [← he]; exact hcb))
        have hneg : ¬(k = 13 * suit8 card + tv ∧ tv ≤ 12) :=
          fun hc => hkk hc.1
        rw [if_neg hneq, if_neg hneg]
    · have h14 : rank8 card = 14 := by omega
      have hlost : ¬(card = cardByte k) := fun he => by
        have hr := (rank8_cardByte k hk).2
        rw [← he, h14] at hr
        omega
      have hneg : ¬(k = 13 * suit8 card + tv ∧ tv ≤ 12) :=
        fun hc => htv12 hc.2
      rw [if_neg hlost, if_neg hneg]
  omega

end Solitare

namespace Solitare

theorem append_sum_shift (st : SolitareState) (c2 card k : Nat)
    (hll7 : st.slots_lens.length = 7)
    (hsl7 : st.slots.length = 7)
    (hc27 : c2 < 7)
    (hcol2len : (st.slots.getD c2 []).length = 19)
    (hl256 : st.slots_lens.getD c2 0 < 256)
    (hlen2 : st.slots_lens.getD c2 0 &&& 15 ≤ 14) :
    (∑ c3 in Finset.range 7, ∑ r' in Finset.range
        ((st.slots_lens.set c2 (((st.slots_lens.getD c2 0 >>> 4) <<< 4)
          ||| ((st.slots_lens.getD c2 0 &&& 15) + 1))).getD c3 0 &&& 15),
      if ((st.slots.set c2 ((st.slots.getD c2 []).set
          (st.slots_lens.getD c2 0 &&& 15) card)).getD c3 []).getD r' 0
          = cardByte k then 1 else 0)
      = (∑ c3 in Finset.range 7, ∑ r' in Finset.range
          (st.slots_lens.getD c3 0 &&& 15),
        if (st.slots.getD c3 []).getD r' 0 = cardByte k then 1 else 0)
        + (if card = cardByte k then 1 else 0) := by
  have hpk : (((st.slots_lens.getD c2 0 >>> 4) <<< 4)
      ||| ((st.slots_lens.getD c2 0 &&& 15) + 1)) &&& 15
      = (st.slots_lens.getD c2 0 &&& 15) + 1 :=
    unpack_lo _ (shr4_lt _ hl256) _ (by omega)
  have hother : ∀ c3, c3 < 7 → c3 ≠ c2 →
      (∑ r' in Finset.range
        ((st.slots_lens.set c2 (((st.slots_lens.getD c2 0 >>> 4) <<< 4)
          ||| ((st.slots_lens.getD c2 0 &&& 15) + 1))).getD c3 0 &&& 15),
        if ((st.slots.set c2 ((st.slots.getD c2 []).set
            (st.slots_lens.getD c2 0 &&& 15) card)).getD c3 []).getD r' 0
            = cardByte k then (1 : Nat) else 0)
      = ∑ r' in Finset.range (st.slots_lens.getD c3 0 &&& 15),
        if (st.slots.getD c3 []).getD r' 0 = cardByte k then 1 else 0 := by
    intro c3 _ hne
    rw [getD_set_ne _ _ _ _ _ (fun he => hne he.symm),
      getD_set_ne _ _ _ _ _ (fun he => hne he.symm)]
  have hsum := sum_cols_one
    (fun c3 => ∑ r' in Finset.range (st.slots_lens.getD c3 0 &&& 15),
      if (st.slots.getD c3 []).getD r' 0 = cardByte k then 1 else 0)
    (fun c3 => ∑ r' in Finset.range
        ((st.slots_lens.set c2 (((st.slots_lens.getD c2 0 >>> 4) <<< 4)
          ||| ((st.slots_lens.getD c2 0 &&& 15) + 1))).getD c3 0 &&& 15),
      if ((st.slots.set c2 ((st.slots.getD c2 []).set
          (st.slots_lens.getD c2 0 &&& 15) card)).getD c3 []).getD r' 0
          = cardByte k then 1 else 0)
    c2 hc27 hother
  simp only [] at hsum
  have hgc2 : (∑ r' in Finset.range
        ((st.slots_lens.set c2 (((st.slots_lens.getD c2 0 >>> 4) <<< 4)
          ||| ((st.slots_lens.getD c2 0 &&& 15) + 1))).getD c2 0 &&& 15),
        if ((st.slots.set c2 ((st.slots.getD c2 []).set
            (st.slots_lens.getD c2 0 &&& 15) card)).getD c2 []).getD r' 0
            = cardByte k then (1 : Nat) else 0)
      = (∑ r' in Finset.range (st.slots_lens.getD c2 0 &&& 15),
        if (st.slots.getD c2 []).getD r' 0 = cardByte k then 1 else 0)
        + (if card = cardByte k then 1 else 0) := by
    rw [getD_set_self _ _ _ _ (by omega), hpk,
      getD_set_self _ _ _ _ (by omega)]
    exact sum_append_cell _ _ _ _ (by omega)
  omega

theorem cons_target_to_slot (st : SolitareState) (c2 suit tv0 : Nat)
    (hts : st.targets.length = 4)
    (hll7 : st.slots_lens.length = 7)
    (hsl7 : st.slots.length = 7)
    (hc27 : c2 < 7)
    (hsuit : suit < 4)
    (hgd : st.targets.getD suit 0 = tv0)
    (htv0 : 1 ≤ tv0)
    (htv13 : tv0 ≤ 13)
    (hcol2len : (st.slots.getD c2 []).length = 19)
    (hl256 : st.slots_lens.getD c2 0 < 256)
    (hlen2 : st.slots_lens.getD c2 0 &&& 15 ≤ 14)
    (hcons : CardConservation st) :
    CardConservation ⟨st.deck, st.targets.set suit (tv0 - 1),
      st.slots.set c2 ((st.slots.getD c2 []).set
        (st.slots_lens.getD c2 0 &&& 15) ((suit <<< 4) ||| tv0)),
      st.slots_lens.set c2 (((st.slots_lens.getD c2 0 >>> 4) <<< 4)
        ||| ((st.slots_lens.getD c2 0 &&& 15) + 1))⟩ := by
  intro k hk
  have h1 := hcons k hk
  simp only [stCount, targAt, cardAt, colOf, lenOf, lensByte, deck_mk,
    targets_mk, slots_mk, slots_lens_mk] at h1 ⊢
  have happ := append_sum_shift st c2 ((suit <<< 4) ||| tv0) k hll7 hsl7
    hc27 hcol2len hl256 hlen2
  have hdrop := targ_term_drop st.targets suit tv0 k hts hsuit hgd htv0
    htv13 hk
  have hcb : cardByte (13 * suit + (tv0 - 1)) = (suit <<< 4) ||| tv0 := by
    unfold cardByte
    rw [show (13 * suit + (tv0 - 1)) / 13 = suit from by omega,
      show (13 * suit + (tv0 - 1)) % 13 = tv0 - 1 from by omega,
      show tv0 - 1 + 1 = tv0 from by omega]
  have hrel : (if (suit <<< 4) ||| tv0 = cardByte k then (1 : Nat) else 0)
      = (if k = 13 * suit + (tv0 - 1) then 1 else 0) := by
    by_cases hkk : k = 13 * suit + (tv0 - 1)
    · have hcc : (suit <<< 4) ||| tv0 = cardByte k := by
        rw [hkk]
        exact hcb.symm
      rw [if_pos hcc, if_pos hkk]
    · have hneq : ¬((suit <<< 4) ||| tv0 = cardByte k) := fun he =>
        hkk (cardByte_inj k hk (13 * suit + (tv0 - 1)) (by omega)
          (by rw [← he]; exact hcb.symm))
      rw [if_neg hneq, if_neg hkk]
  omega

theorem cons_deck_to_slot (st : SolitareState) (c2 ind : Nat)
    (hll7 : st.slots_lens.length = 7)
    (hsl7 : st.slots.length = 7)
    (hc27 : c2 < 7)
    (hind52 : ind < 52)
    (hbit : st.deck.testBit ind = true)
    (hcol2len : (st.slots.getD c2 []).length = 19)
    (hl256 : st.slots_lens.getD c2 0 < 256)
    (hlen2 : st.slots_lens.getD c2 0 &&& 15 ≤ 14)
    (hcons : CardConservation st) :
    CardConservation ⟨clearBit st.deck ind, st.targets,
      st.slots.set c2 ((st.slots.getD c2 []).set
        (st.slots_lens.getD c2 0 &&& 15) (cardByte ind)),
      st.slots_lens.set c2 (((st.slots_lens.getD c2 0 >>> 4) <<< 4)
        ||| ((st.slots_lens.getD c2 0 &&& 15) + 1))⟩ := by
  intro k hk
  have h1 := hcons k hk
  simp only [stCount, targAt, cardAt, colOf, lenOf, lensByte, deck_mk,
    targets_mk, slots_mk, slots_lens_mk] at h1 ⊢
  have happ := append_sum_shift st c2 (cardByte ind) k hll7 hsl7
    hc27 hcol2len hl256 hlen2
  have hdterm := deck_term_clear st.deck ind k hk hbit
  have hrel : (if cardByte ind = cardByte k then (1 : Nat) else 0)
      = (if k = ind then 1 else 0) := by
    by_cases hkk : k = ind
    · have hcc : cardByte ind = cardByte k := by rw [hkk]
      rw [if_pos hcc, if_pos hkk]
    · have hneq : ¬(cardByte ind = cardByte k) := fun he =>
        hkk (cardByte_inj k hk ind hind52 he.symm)
      rw [if_neg hneq, if_neg hkk]
  omega

end Solitare

namespace Solitare

theorem cons_slot_to_slot_single (st : SolitareState) (c c2 card : Nat)
    (hll7 : st.slots_lens.length = 7)
    (hsl7 : st.slots.length = 7)
    (hc7 : c < 7) (hc27 : c2 < 7) (hne : c ≠ c2)
    (hcard : (st.slots.getD c []).getD
      ((st.slots_lens.getD c 0 &&& 15) - 1) 0 = card)
    (hpos : 0 < st.slots_lens.getD c 0 &&& 15)
    (hl256c : st.slots_lens.getD c 0 < 256)
    (hl256c2 : st.slots_lens.getD c2 0 < 256)
    (hcol2len : (st.slots.getD c2 []).length = 19)
    (hlen2 : st.slots_lens.getD c2 0 &&& 15 ≤ 14)
    (hcons : CardConservation st) :
    CardConservation ⟨st.deck, st.targets,
      st.slots.set c2 ((st.slots.getD c2 []).set
        (st.slots_lens.getD c2 0 &&& 15) card),
      (st.slots_lens.set c2 (((st.slots_lens.getD c2 0 >>> 4) <<< 4)
        ||| ((st.slots_lens.getD c2 0 &&& 15) + 1))).set c
        (shrink_lens_byte (st.slots_lens.getD c 0))⟩ := by
  intro k hk
  have h1 := hcons k hk
  simp only [stCount, targAt, cardAt, colOf, lenOf, lensByte, deck_mk,
    targets_mk, slots_mk, slots_lens_mk] at h1 ⊢
  obtain ⟨hsp1, _⟩ := shrink_spec (st.slots_lens.getD c 0) hl256c hpos
  have hpk : (((st.slots_lens.getD c2 0 >>> 4) <<< 4)
      ||| ((st.slots_lens.getD c2 0 &&& 15) + 1)) &&& 15
      = (st.slots_lens.getD c2 0 &&& 15) + 1 :=
    unpack_lo _ (shr4_lt _ hl256c2) _ (by omega)
  have hother : ∀ c3, c3 < 7 → c3 ≠ c → c3 ≠ c2 →
      (∑ r' in Finset.range
        (((st.slots_lens.set c2 (((st.slots_lens.getD c2 0 >>> 4) <<< 4)
          ||| ((st.slots_lens.getD c2 0 &&& 15) + 1))).set c
          (shrink_lens_byte (st.slots_lens.getD c 0))).getD c3 0 &&& 15),
        if ((st.slots.set c2 ((st.slots.getD c2 []).set
            (st.slots_lens.getD c2 0 &&& 15) card)).getD c3 []).getD r' 0
            = cardByte k then (1 : Nat) else 0)
      = ∑ r' in Finset.range (st.slots_lens.getD c3 0 &&& 15),
        if (st.slots.getD c3 []).getD r' 0 = cardByte k then 1 else 0 := by
    intro c3 _ hne0 hne2
    rw [getD_set_ne _ _ _ _ _ (fun he => hne0 he.symm),
      getD_set_ne _ _ _ _ _ (fun he => hne2 he.symm),
      getD_set_ne _ _ _ _ _ (fun he => hne2 he.symm)]
  have hsum := sum_cols_two
    (fun c3 => ∑ r' in Finset.range (st.slots_lens.getD c3 0 &&& 15),
      if (st.slots.getD c3 []).getD r' 0 = cardByte k then 1 else 0)
    (fun c3 => ∑ r' in Finset.range
        (((st.slots_lens.set c2 (((st.slots_lens.getD c2 0 >>> 4) <<< 4)
          ||| ((st.slots_lens.getD c2 0 &&& 15) + 1))).set c
          (shrink_lens_byte (st.slots_lens.getD c 0))).getD c3 0 &&& 15),
      if ((st.slots.set c2 ((st.slots.getD c2 []).set
          (st.slots_lens.getD c2 0 &&& 15) card)).getD c3 []).getD r' 0
          = cardByte k then 1 else 0)
    c c2 hc7 hc27 hne hother
  simp only [] at hsum
  have hgc : (∑ r' in Finset.range
        (((st.slots_lens.set c2 (((st.slots_lens.getD c2 0 >>> 4) <<< 4)
          ||| ((st.slots_lens.getD c2 0 &&& 15) + 1))).set c
          (shrink_lens_byte (st.slots_lens.getD c 0))).getD c 0 &&& 15),
        if ((st.slots.set c2 ((st.slots.getD c2 []).set
            (st.slots_lens.getD c2 0 &&& 15) card)).getD c []).getD r' 0
            = cardByte k then (1 : Nat) else 0)
      = ∑ r' in Finset.range ((st.slots_lens.getD c 0 &&& 15) - 1),
        if (st.slots.getD c []).getD r' 0 = cardByte k then 1 else 0 := by
    rw [getD_set_self _ _ _ _ (by rw [List.length_set]; omega), hsp1,
      getD_set_ne _ _ _ _ _ (fun he => hne he.symm)]
  have hfc : (∑ r' in Finset.range (st.slots_lens.getD c 0 &&& 15),
        if (st.slots.getD c []).getD r' 0 = cardByte k then (1 : Nat) else 0)
      = (∑ r' in Finset.range ((st.slots_lens.getD c 0 &&& 15) - 1),
        if (st.slots.getD c []).getD r' 0 = cardByte k then 1 else 0)
      + (if card = cardByte k then 1 else 0) := by
    conv_lhs => rw [show st.slots_lens.getD c 0 &&& 15
      = ((st.slots_lens.getD c 0 &&& 15) - 1) + 1 from by omega]
    rw [Finset.sum_range_succ, hcard]
  have hgc2 : (∑ r' in Finset.range
        (((st.slots_lens.set c2 (((st.slots_lens.getD c2 0 >>> 4) <<< 4)
          ||| ((st.slots_lens.getD c2 0 &&& 15) + 1))).set c
          (shrink_lens_byte (st.slots_lens.getD c 0))).getD c2 0 &&& 15),
        if ((st.slots.set c2 ((st.slots.getD c2 []).set
            (st.slots_lens.getD c2 0 &&& 15) card)).getD c2 []).getD r' 0
            = cardByte k then (1 : Nat) else 0)
      = (∑ r' in Finset.range (st.slots_lens.getD c2 0 &&& 15),
        if (st.slots.getD c2 []).getD r' 0 = cardByte k then 1 else 0)
        + (if card = cardByte k then 1 else 0) := by
    rw [getD_set_ne _ _ _ _ _ hne,
      getD_set_self _ _ _ _ (by omega), hpk,
      getD_set_self _ _ _ _ (by omega)]
    exact sum_append_cell _ _ _ _ (by omega)
  omega

end Solitare

namespace Solitare

theorem cons_slot_to_slot_multi (st : SolitareState) (c c2 r : Nat)
    (slots2 : List (List Nat))
    (hll7 : st.slots_lens.length = 7)
    (hc7 : c < 7) (hc27 : c2 < 7) (hne : c2 ≠ c)
    (hr : r < st.slots_lens.getD c 0 &&& 15)
    (hfit : (st.slots_lens.getD c2 0 &&& 15)
      + (st.slots_lens.getD c 0 &&& 15) ≤ 15)
    (hl256c : st.slots_lens.getD c 0 < 256)
    (hl256c2 : st.slots_lens.getD c2 0 < 256)
    (hcp : copy_loop st.slots c c2 r (st.slots_lens.getD c2 0 &&& 15)
      (st.slots_lens.getD c 0 &&& 15) = some slots2)
    (hcons : CardConservation st) :
    CardConservation ⟨st.deck, st.targets, slots2,
      (st.slots_lens.set c (multi_shrink_byte (st.slots_lens.getD c 0) r)).set
        c2 (((st.slots_lens.getD c2 0 >>> 4) <<< 4)
          ||| ((st.slots_lens.getD c2 0 &&& 15)
            + ((st.slots_lens.getD c 0 &&& 15) - r)))⟩ := by
  intro k hk
  have h1 := hcons k hk
  simp only [stCount, targAt, cardAt, colOf, lenOf, lensByte, deck_mk,
    targets_mk, slots_mk, slots_lens_mk] at h1 ⊢
  obtain ⟨hcl1, hcl2, hcl3, hcl4, hcl5⟩ :=
    copy_loop_spec st.slots c c2 r (st.slots_lens.getD c2 0 &&& 15) hne
      (st.slots_lens.getD c 0 &&& 15) slots2
      (by have := and15_le (st.slots_lens.getD c2 0)
          have := and15_le (st.slots_lens.getD c 0)
          omega)
      (by have := and15_le (st.slots_lens.getD c 0)
          omega)
      hcp
  obtain ⟨hmp1, _⟩ :=
    multi_shrink_spec (st.slots_lens.getD c 0) r hl256c hr
  have hpk : (((st.slots_lens.getD c2 0 >>> 4) <<< 4)
      ||| ((st.slots_lens.getD c2 0 &&& 15)
        + ((st.slots_lens.getD c 0 &&& 15) - r))) &&& 15
      = (st.slots_lens.getD c2 0 &&& 15)
        + ((st.slots_lens.getD c 0 &&& 15) - r) :=
    unpack_lo _ (shr4_lt _ hl256c2) _ (by omega)
  have hother : ∀ c3, c3 < 7 → c3 ≠ c → c3 ≠ c2 →
      (∑ r' in Finset.range
        (((st.slots_lens.set c
          (multi_shrink_byte (st.slots_lens.getD c 0) r)).set c2
          (((st.slots_lens.getD c2 0 >>> 4) <<< 4)
            ||| ((st.slots_lens.getD c2 0 &&& 15)
              + ((st.slots_lens.getD c 0 &&& 15) - r)))).getD c3 0 &&& 15),
        if (slots2.getD c3 []).getD r' 0 = cardByte k then (1 : Nat) else 0)
      = ∑ r' in Finset.range (st.slots_lens.getD c3 0 &&& 15),
        if (st.slots.getD c3 []).getD r' 0 = cardByte k then 1 else 0 := by
    intro c3 _ hne0 hne2
    rw [getD_set_ne _ _ _ _ _ (fun he => hne2 he.symm),
      getD_set_ne _ _ _ _ _ (fun he => hne0 he.symm),
      hcl1 c3 hne2]
  have hsum := sum_cols_two
    (fun c3 => ∑ r' in Finset.range (st.slots_lens.getD c3 0 &&& 15),
      if (st.slots.getD c3 []).getD r' 0 = cardByte k then 1 else 0)
    (fun c3 => ∑ r' in Finset.range
        (((st.slots_lens.set c
          (multi_shrink_byte (st.slots_lens.getD c 0) r)).set c2
          (((st.slots_lens.getD c2 0 >>> 4) <<< 4)
            ||| ((st.slots_lens.getD c2 0 &&& 15)
              + ((st.slots_lens.getD c 0 &&& 15) - r)))).getD c3 0 &&& 15),
      if (slots2.getD c3 []).getD r' 0 = cardByte k then 1 else 0)
    c c2 hc7 hc27 (fun he => hne he.symm) hother
  simp only [] at hsum
  have hgc : (∑ r' in Finset.range
        (((st.slots_lens.set c
          (multi_shrink_byte (st.slots_lens.getD c 0) r)).set c2
          (((st.slots_lens.getD c2 0 >>> 4) <<< 4)
            ||| ((st.slots_lens.getD c2 0 &&& 15)
              + ((st.slots_lens.getD c 0 &&& 15) - r)))).getD c 0 &&& 15),
        if (slots2.getD c []).getD r' 0 = cardByte k then (1 : Nat) else 0)
      = ∑ r' in Finset.range r,
        if (st.slots.getD c []).getD r' 0 = cardByte k then 1 else 0 := by
    rw [getD_set_ne _ _ _ _ _ hne,
      getD_set_self _ _ _ _ (by omega), hmp1,
      hcl1 c (fun he => hne he.symm)]
  have hfc : (∑ r' in Finset.range (st.slots_lens.getD c 0 &&& 15),
        if (st.slots.getD c []).getD r' 0 = cardByte k then (1 : Nat) else 0)
      = (∑ r' in Finset.range r,
        if (st.slots.getD c []).getD r' 0 = cardByte k then 1 else 0)
      + ∑ i in Finset.range ((st.slots_lens.getD c 0 &&& 15) - r),
        if (st.slots.getD c []).getD (r + i) 0 = cardByte k then 1 else 0 := by
    conv_lhs => rw [show st.slots_lens.getD c 0 &&& 15
      = r + ((st.slots_lens.getD c 0 &&& 15) - r) from by omega]
    rw [Finset.sum_range_add]
  have hgc2 : (∑ r' in Finset.range
        (((st.slots_lens.set c
          (multi_shrink_byte (st.slots_lens.getD c 0) r)).set c2
          (((st.slots_lens.getD c2 0 >>> 4) <<< 4)
            ||| ((st.slots_lens.getD c2 0 &&& 15)
              + ((st.slots_lens.getD c 0 &&& 15) - r)))).getD c2 0 &&& 15),
        if (slots2.getD c2 []).getD r' 0 = cardByte k then (1 : Nat) else 0)
      = (∑ r' in Finset.range (st.slots_lens.getD c2 0 &&& 15),
        if (st.slots.getD c2 []).getD r' 0 = cardByte k then 1 else 0)
      + ∑ i in Finset.range ((st.slots_lens.getD c 0 &&& 15) - r),
        if (st.slots.getD c []).getD (r + i) 0 = cardByte k then 1 else 0 := by
    rw [getD_set_self _ _ _ _ (by rw [List.length_set]; omega), hpk,
      Finset.sum_range_add]
    congr 1
    · refine Finset.sum_congr rfl fun p hp => ?_
      have hplt := Finset.mem_range.mp hp
      rw [hcl4 p (fun i _ => by omega)]
    · refine Finset.sum_congr rfl fun i hi => ?_
      have hilt := Finset.mem_range.mp hi
      rw [hcl5 i (by omega)]
  omega

end Solitare

namespace Solitare

theorem valid_slot_src (st : SolitareState) (c r : Nat)
    (h : (is_selection_valid st (.Slot c r)).1 = true) :
    c < 7 ∧ lensByte st c >>> 4 ≤ r ∧ r < lensByte st c &&& 15 := by
  by_cases hc : c < 7
  · refine ⟨hc, ?_⟩
    simp only [is_selection_valid] at h
    rw [if_pos hc] at h
    exact of_decide_eq_true h
  · exfalso
    simp only [is_selection_valid] at h
    rw [if_neg hc] at h
    exact absurd h (by simp)

theorem valid_target_src (st : SolitareState) (suit : Nat)
    (h : (is_selection_valid st (.Target suit)).1 = true) :
    0 < st.targets.getD suit 0 := by
  simp only [is_selection_valid] at h
  by_cases hs : suit < 4
  · rw [if_pos hs] at h
    exact of_decide_eq_true h
  · rw [if_neg hs] at h
    exact absurd h (by simp)

theorem valid_deck_src (st : SolitareState) (i : Nat)
    (h : (is_selection_valid st (.Deck i)).1 = true) :
    i < popcount64 st.deck := by
  simp only [is_selection_valid] at h
  exact of_decide_eq_true h

theorem resolve_slot_some (st : SolitareState) (c r : Nat)
    (hll : st.slots_lens.length = 7) (hsl : st.slots.length = 7)
    (hc : c < 7) (hclen : (colOf st c).length = 19) (hr19 : r < 19) :
    resolve_card st (.Slot c r) =
      some (cardAt st c r, decide (add8 r 1 < (lensByte st c &&& 15))) := by
  have hlb : st.slots_lens.get? c = some (lensByte st c) :=
    get?_of_lt _ _ 0 (by rw [hll]; exact hc)
  have hcol : st.slots.get? c = some (colOf st c) :=
    get?_of_lt _ _ [] (by rw [hsl]; exact hc)
  have hcr : (colOf st c).get? r = some (cardAt st c r) :=
    get?_of_lt _ _ 0 (by rw [hclen]; omega)
  simp only [resolve_card]
  rw [hlb]
  simp only [Option.bind_eq_bind', Option.some_bind]
  rw [hcol]
  simp only [Option.some_bind]
  rw [hcr]
  rfl

theorem resolve_slot_eq (st : SolitareState) (c r card : Nat) (mult : Bool)
    (hll : st.slots_lens.length = 7) (hsl : st.slots.length = 7)
    (hc : c < 7) (hclen : (colOf st c).length = 19) (hr19 : r < 19)
    (h : resolve_card st (.Slot c r) = some (card, mult)) :
    card = cardAt st c r ∧
    mult = decide (add8 r 1 < (lensByte st c &&& 15)) := by
  rw [resolve_slot_some st c r hll hsl hc hclen hr19] at h
  have hp := (Prod.mk.injEq _ _ _ _).mp (Option.some_inj.mp h)
  exact ⟨hp.1.symm, hp.2.symm⟩

theorem resolve_deck_eq (st : SolitareState) (i card : Nat) (mult : Bool)
    (h : resolve_card st (.Deck i) = some (card, mult)) :
    deck_nth_ind st.deck i < 52 ∧
    card = cardByte (deck_nth_ind st.deck i) ∧ mult = false := by
  simp only [resolve_card, Option.bind_eq_bind', Option.bind_eq_some',
    Option.pure_def] at h
  obtain ⟨c0, hfi, hpure⟩ := h
  obtain ⟨h1, h2⟩ := (Prod.mk.injEq _ _ _ _).mp (Option.some_inj.mp hpure)
  obtain ⟨hind, hcb⟩ := from_index_eq _ _ hfi
  exact ⟨hind, by rw [← h1]; exact hcb, h2.symm⟩

theorem resolve_target_eq (st : SolitareState) (suit card : Nat) (mult : Bool)
    (h : resolve_card st (.Target suit) = some (card, mult)) :
    suit < 4 ∧ st.targets.getD suit 0 ≤ 13 ∧
    card = (suit <<< 4) ||| st.targets.getD suit 0 ∧ mult = false := by
  simp only [resolve_card, Option.bind_eq_bind', Option.bind_eq_some',
    Option.pure_def] at h
  obtain ⟨rk, hgt, c0, hfsr, hpure⟩ := h
  obtain ⟨h1, h2⟩ := (Prod.mk.injEq _ _ _ _).mp (Option.some_inj.mp hpure)
  have hrk : st.targets.getD suit 0 = rk := getD_of_get? hgt
  unfold from_suit_rank at hfsr
  split at hfsr
  · rename_i hcond
    obtain rfl := Option.some_inj.mp hfsr
    exact ⟨hcond.1, by omega, by rw [← h1, hrk], h2.symm⟩
  · exact absurd hfsr (by simp)

end Solitare

namespace Solitare

set_option maxHeartbeats 1000000 in
/-- C1 (amended): the partition invariant is preserved by every
successful move whose destination column (when the destination is a
tableau column) differs from a tableau source's column and still has
room for the copy loop's writes (old length plus the source's span at
most 15).  All six source/destination shapes are covered; foundation
counters are assumed within their 0..13 range. -/
theorem conservation_preserved (st st' : SolitareState) (src dst : Highlight)
    (hwf : WF st)
    (htg : ∀ s, s < 4 → targAt st s ≤ 13)
    (hcons : CardConservation st)
    (hsrc : (is_selection_valid st src).1 = true)
    (hsep : ∀ c r c2 j, src = .Slot c r → dst = .Slot c2 j → c2 ≠ c)
    (hfit : ∀ c2 j, dst = .Slot c2 j → lenOf st c2 + moved_span st src ≤ 15)
    (h : try_move st src dst = some (st', .None)) :
    CardConservation st' := by
  obtain ⟨hdeck, hts, htv, hsl, hcols, hll, hlv⟩ := hwf
  unfold try_move at h
  simp only [Option.bind_eq_bind', Option.bind_eq_some'] at h
  obtain ⟨⟨card, mult⟩, hres, hm⟩ := h
  cases dst with
  | None => exact Option.noConfusion hm
  | Deck i => simp at hm
  | Target t =>
    replace hm : tm_target st src (.Target t) card mult
        = some (st', .None) := hm
    unfold tm_target at hm
    cases hg : st.targets.get? (suit8 card) with
    | none => rw [hg] at hm; exact absurd hm (by simp)
    | some tv =>
      rw [hg] at hm
      simp only [Option.bind_eq_bind', Option.some_bind] at hm
      split at hm
      · exact absurd (congrArg Prod.snd (Option.some_inj.mp hm)) (by simp)
      · rename_i hcnd
        push_neg at hcnd
        obtain ⟨hrank, hmultf⟩ := hcnd
        simp only [Option.bind_eq_some'] at hm
        obtain ⟨targets1, ht1, st2, hst2, hfin⟩ := hm
        obtain ⟨hsuitlen, rfl⟩ := setc?_some ht1
        obtain rfl := ((Prod.mk.injEq _ _ _ _).mp (Option.some_inj.mp hfin)).1
        have hsuit4 : suit8 card < 4 := by rwa [hts] at hsuitlen
        have htveq : st.targets.getD (suit8 card) 0 = tv := getD_of_get? hg
        have htv13 : tv ≤ 13 := by
          have := htg (suit8 card) hsuit4
          unfold targAt at this
          omega
        have hadd : add8 tv 1 = tv + 1 := add8_eq _ _ (by omega)
        rw [hadd] at hrank
        cases src with
        | None => exact absurd hst2 (by simp [remove_from_source])
        | Target s => exact absurd hst2 (by simp [remove_from_source])
        | Deck i =>
          simp only [remove_from_source, deck_mk, targets_mk, slots_mk,
            slots_lens_mk] at hst2
          obtain rfl := Option.some_inj.mp hst2
          obtain ⟨hind52, hcB, hmfalse⟩ := resolve_deck_eq st i card mult hres
          subst hcB
          have hi := valid_deck_src st i hsrc
          have hbit := deck_nth_ind_testBit st.deck i hdeck hi
          have hs0 := suit8_cardByte _ hind52
          have hr0 := rank8_cardByte_eq _ hind52
          have hmod : (deck_nth_ind st.deck i) % 13 = tv := by omega
          rw [hadd, to_ind8_cardByte _ hind52, hs0]
          have hgd : st.targets.getD (deck_nth_ind st.deck i / 13) 0 = tv := by
            rw [← hs0]
            exact htveq
          exact cons_deck_to_target st _ tv hts hind52 hbit hgd hmod hcons
        | Slot c r =>
          obtain ⟨hc7, hhid, hrlen⟩ := valid_slot_src st c r hsrc
          have hclen : (colOf st c).length = 19 :=
            (hcols _ (colOf_mem st c hsl hc7)).1
          have h15 := and15_le (lensByte st c)
          obtain ⟨hcardeq, hmeq⟩ := resolve_slot_eq st c r card mult hll hsl
            hc7 hclen (by omega) hres
          have hmf : mult = false := by
            cases mult with
            | false => rfl
            | true => exact absurd rfl hmultf
          rw [hmf] at hmeq
          have hradd : add8 r 1 = r + 1 := add8_eq _ _ (by omega)
          have hnlt : ¬(add8 r 1 < (lensByte st c &&& 15)) :=
            of_decide_eq_false hmeq.symm
          rw [hradd] at hnlt
          have hrtop : r = (lensByte st c &&& 15) - 1 := by omega
          simp only [remove_from_source, deck_mk, targets_mk, slots_mk,
            slots_lens_mk, Option.bind_eq_bind', Option.bind_eq_some'] at hst2
          obtain ⟨l0, hl0, lens1, hlens1, hst2e⟩ := hst2
          have hlb : st.slots_lens.get? c = some (lensByte st c) :=
            get?_of_lt _ _ 0 (by rw [hll]; exact hc7)
          have hl0e : l0 = lensByte st c :=
            Option.some_inj.mp (hl0.symm.trans hlb)
          subst hl0e
          obtain ⟨hclt, rfl⟩ := setc?_some hlens1
          obtain rfl := Option.some_inj.mp hst2e
          have hl256 : lensByte st c < 256 :=
            hlv _ (getD_mem _ _ _ (by rw [hll]; exact hc7))
          have hcard256 : card < 256 := by
            rw [hcardeq]
            exact (hcols _ (colOf_mem st c hsl hc7)).2 _
              (getD_mem _ _ _ (by rw [hclen]; omega))
          have hbc : (st.slots.getD c []).getD
              ((st.slots_lens.getD c 0 &&& 15) - 1) 0 = card := by
            rw [show ((st.slots_lens.getD c 0 &&& 15) - 1) = r from hrtop.symm]
            exact hcardeq.symm
          rw [hadd]
          exact cons_slot_to_target st c tv card hts hll hc7 hsuit4 htveq
            htv13 hrank hbc (Nat.lt_of_le_of_lt (Nat.zero_le r) hrlen)
            hl256 hcard256 hcons
  | Slot c2 j =>
    replace hm : tm_slot st src (.Slot c2 j) card mult c2
        = some (st', .None) := hm
    unfold tm_slot at hm
    cases hg2 : st.slots_lens.get? c2 with
    | none => rw [hg2] at hm; exact absurd hm (by simp)
    | some slotv =>
      rw [hg2] at hm
      simp only [Option.bind_eq_bind', Option.some_bind] at hm
      cases hleg : slot_legal st c2 card slotv with
      | none => rw [hleg] at hm; exact absurd hm (by simp)
      | some legal =>
        rw [hleg] at hm
        simp only [Option.some_bind] at hm
        cases legal with
        | false =>
          rw [if_neg (by simp)] at hm
          exact absurd (congrArg Prod.snd (Option.some_inj.mp hm)) (by simp)
        | true =>
          rw [if_pos rfl] at hm
          have hc27 : c2 < 7 := by
            by_contra hx
            rw [List.get?_eq_none.mpr (by omega)] at hg2
            exact Option.noConfusion hg2
          have hslotv : slotv = lensByte st c2 := (getD_of_get? hg2).symm
          subst hslotv
          have hl256c2 : lensByte st c2 < 256 :=
            hlv _ (getD_mem _ _ _ (by rw [hll]; exact hc27))
          have hcol2len : (st.slots.getD c2 []).length = 19 :=
            (hcols _ (colOf_mem st c2 hsl hc27)).1
          have h15c2 := and15_le (lensByte st c2)
          split at hm
          · -- multi-card branch
            rename_i hmT
            simp only [Option.some_bind, Option.bind_eq_some'] at hm
            obtain ⟨st2, hst2, hfin⟩ := hm
            obtain rfl :=
              ((Prod.mk.injEq _ _ _ _).mp (Option.some_inj.mp hfin)).1
            cases src with
            | None => exact absurd hst2 (by simp [slot_remove_source])
            | Target s =>
              exfalso
              obtain ⟨_, _, _, hmfalse⟩ := resolve_target_eq st s card mult hres
              rw [hmT] at hmfalse
              exact Bool.noConfusion hmfalse
            | Deck i =>
              exfalso
              obtain ⟨_, _, hmfalse⟩ := resolve_deck_eq st i card mult hres
              rw [hmT] at hmfalse
              exact Bool.noConfusion hmfalse
            | Slot c r =>
              obtain ⟨hc7, hhid, hrlen⟩ := valid_slot_src st c r hsrc
              have hne := hsep c r c2 j rfl rfl
              have hfitv := hfit c2 j rfl
              simp only [moved_span] at hfitv
              unfold lenOf lensByte at hfitv
              have h15 := and15_le (lensByte st c)
              simp only [slot_remove_source, hmT, if_true, deck_mk,
                targets_mk, slots_mk, slots_lens_mk, Option.bind_eq_bind',
                Option.bind_eq_some'] at hst2
              obtain ⟨l0, hl0, lens1, hlens1, slots2, hcp, lens2, hlens2,
                hst2e⟩ := hst2
              have hlb : st.slots_lens.get? c = some (lensByte st c) :=
                get?_of_lt _ _ 0 (by rw [hll]; exact hc7)
              have hl0e : l0 = lensByte st c :=
                Option.some_inj.mp (hl0.symm.trans hlb)
              subst hl0e
              obtain ⟨hclt1, rfl⟩ := setc?_some hlens1
              obtain ⟨hclt2, rfl⟩ := setc?_some hlens2
              obtain rfl := Option.some_inj.mp hst2e
              have hl256c : lensByte st c < 256 :=
                hlv _ (getD_mem _ _ _ (by rw [hll]; exact hc7))
              have hsub : sub8 (lensByte st c &&& 15) r
                  = (lensByte st c &&& 15) - r :=
                sub8_eq _ _ (by omega) (by omega)
              have haddg : add8 (lensByte st c2 &&& 15)
                  ((lensByte st c &&& 15) - r)
                  = (lensByte st c2 &&& 15) + ((lensByte st c &&& 15) - r) :=
                add8_eq _ _ (by unfold lensByte; omega)
              rw [hsub, haddg]
              exact cons_slot_to_slot_multi st c c2 r slots2 hll hc7 hc27
                hne hrlen hfitv hl256c hl256c2 hcp hcons
          · -- single-card branch: append then remove
            rename_i hmF
            have hmf : mult = false := by
              cases mult with
              | false => rfl
              | true => exact absurd rfl hmF
            subst hmf
            simp only [Option.bind_eq_some'] at hm
            obtain ⟨st1, hap, st2, hst2, hfin⟩ := hm
            unfold append_single at hap
            simp only [Option.bind_eq_bind', Option.bind_eq_some'] at hap
            obtain ⟨colC2, hcolC2, colC2', hsetcell, slots1, hslots1, lens1,
              hlens1, hape⟩ := hap
            have hcol : st.slots.get? c2 = some (colOf st c2) :=
              get?_of_lt _ _ [] (by rw [hsl]; exact hc27)
            have hcolC2e : colC2 = colOf st c2 :=
              Option.some_inj.mp (hcolC2.symm.trans hcol)
            subst hcolC2e
            obtain ⟨hcell_lt, rfl⟩ := setc?_some hsetcell
            obtain ⟨hslot_lt, rfl⟩ := setc?_some hslots1
            obtain ⟨hlens_lt, rfl⟩ := setc?_some hlens1
            obtain rfl := Option.some_inj.mp hape
            obtain rfl :=
              ((Prod.mk.injEq _ _ _ _).mp (Option.some_inj.mp hfin)).1
            have hradd2 : add8 (lensByte st c2 &&& 15) 1
                = (lensByte st c2 &&& 15) + 1 := add8_eq _ _ (by omega)
            cases src with
            | None => exact absurd hst2 (by simp [slot_remove_source])
            | Target suit =>
              obtain ⟨hsuit, hrk13, hcB, _⟩ :=
                resolve_target_eq st suit card false hres
              have hrkpos := valid_target_src st suit hsrc
              have hfitv := hfit c2 j rfl
              simp only [moved_span] at hfitv
              simp only [slot_remove_source, deck_mk, targets_mk, slots_mk,
                slots_lens_mk, Option.bind_eq_bind',
                Option.bind_eq_some'] at hst2
              obtain ⟨tv0, hgt0, targets1, htset, hst2e⟩ := hst2
              have htv0e : tv0 = st.targets.getD suit 0 :=
                (getD_of_get? hgt0).symm
              subst htv0e
              obtain ⟨hslen, rfl⟩ := setc?_some htset
              obtain rfl := Option.some_inj.mp hst2e
              subst hcB
              rw [sub8_eq _ 1 (by omega) (by omega), hradd2]
              exact cons_target_to_slot st c2 suit (st.targets.getD suit 0)
                hts hll hsl hc27 hsuit rfl (by omega) hrk13 hcol2len hl256c2
                (by
                  have : lenOf st c2 + 1 ≤ 15 := hfitv
                  unfold lenOf lensByte at this
                  omega)
                hcons
            | Deck i =>
              obtain ⟨hind52, hcB, _⟩ := resolve_deck_eq st i card false hres
              subst hcB
              have hi := valid_deck_src st i hsrc
              have hbit := deck_nth_ind_testBit st.deck i hdeck hi
              have hfitv := hfit c2 j rfl
              simp only [moved_span] at hfitv
              simp only [slot_remove_source, deck_mk, targets_mk, slots_mk,
                slots_lens_mk] at hst2
              obtain rfl := Option.some_inj.mp hst2
              rw [to_ind8_cardByte _ hind52, hradd2]
              exact cons_deck_to_slot st c2 (deck_nth_ind st.deck i) hll hsl
                hc27 hind52 hbit hcol2len hl256c2
                (by
                  have : lenOf st c2 + 1 ≤ 15 := hfitv
                  unfold lenOf lensByte at this
                  omega)
                hcons
            | Slot c r =>
              obtain ⟨hc7, hhid, hrlen⟩ := valid_slot_src st c r hsrc
              have hne := hsep c r c2 j rfl rfl
              have hfitv := hfit c2 j rfl
              simp only [moved_span] at hfitv
              have h15 := and15_le (lensByte st c)
              have hclen : (colOf st c).length = 19 :=
                (hcols _ (colOf_mem st c hsl hc7)).1
              obtain ⟨hcardeq, hmeq⟩ := resolve_slot_eq st c r card false
                hll hsl hc7 hclen (by omega) hres
              have hradd : add8 r 1 = r + 1 := add8_eq _ _ (by omega)
              have hnlt : ¬(add8 r 1 < (lensByte st c &&& 15)) :=
                of_decide_eq_false hmeq.symm
              rw [hradd] at hnlt
              have hrtop : r = (lensByte st c &&& 15) - 1 := by omega
              simp only [slot_remove_source, deck_mk, targets_mk, slots_mk,
                slots_lens_mk, Bool.false_eq_true, if_false,
                Option.bind_eq_bind', Option.bind_eq_some'] at hst2
              obtain ⟨l0, hl0, lens2, hlens2, hst2e⟩ := hst2
              rw [get?_set_ne _ _ _ _ hne] at hl0
              have hlb : st.slots_lens.get? c = some (lensByte st c) :=
                get?_of_lt _ _ 0 (by rw [hll]; exact hc7)
              have hl0e : l0 = lensByte st c :=
                Option.some_inj.mp (hl0.symm.trans hlb)
              subst hl0e
              obtain ⟨hclt2, rfl⟩ := setc?_some hlens2
              obtain rfl := Option.some_inj.mp hst2e
              have hl256c : lensByte st c < 256 :=
                hlv _ (getD_mem _ _ _ (by rw [hll]; exact hc7))
              have hbc : (st.slots.getD c []).getD
                  ((st.slots_lens.getD c 0 &&& 15) - 1) 0 = card := by
                rw [show ((st.slots_lens.getD c 0 &&& 15) - 1) = r
                  from hrtop.symm]
                exact hcardeq.symm
              rw [hradd2]
              exact cons_slot_to_slot_single st c c2 card hll hsl hc7 hc27
                (Ne.symm hne) hbc (Nat.lt_of_le_of_lt (Nat.zero_le r) hrlen)
                hl256c hl256c2 hcol2len
                (by
                  have h2 : lenOf st c2 + lenOf st c ≤ 15 := hfitv
                  unfold lenOf lensByte at h2
                  have h0 : 0 < lensByte st c &&& 15 :=
                    Nat.lt_of_le_of_lt (Nat.zero_le r) hrlen
                  unfold lensByte at h0
                  omega)
                hcons

end Solitare

namespace Solitare

/-- C1 (witness for the amended theorem): moving the ♠A from `stC1`'s
reserve onto its foundation preserves the partition invariant. -/
theorem conservation_preserved_witness : CardConservation stC1a :=
  conservation_preserved stC1 stC1a (.Deck 0) (.Target 3)
    (by decide) (by decide) (by decide) (by decide)
    (fun c r c2 j hc _ => Highlight.noConfusion hc)
    (fun c2 j hd => Highlight.noConfusion hd)
    (by decide)

end Solitare
